import Mathlib

set_option maxHeartbeats 1000000
set_option autoImplicit false

/-!
Shallow embedding of `src/shell/model/homemodel.py` (class `HomeModel`),
the activity-reconciliation engine of the Sugar shell home view.

Python objects (`HomeActivity` / `HomeRawWindow` instances) are modelled by
an explicit heap mapping creation serial numbers to record values; the
`self._activities` dict maps activity ids to serials; `self._current_activity`
holds the serial of the focused object (or none).  GObject signal emissions
and `set_active` calls on service handles are collected in an output list.
-/

/-- Window kind reported by the window system; the code only distinguishes
`wnck.WINDOW_NORMAL` from everything else. -/
inductive WKind where
  | normal
  | other
deriving DecidableEq

/-- A top-level window handle: its numeric id (`get_xid`) and kind
(`get_window_type`). -/
structure Window where
  xid : Nat
  wtype : WKind
deriving DecidableEq

/-- A dbus activity service handle as used by `_add_activity`:
`get_id`, `get_service_name`, plus `ref`, the identity of the underlying
remote object (two lookups of the same registered service yield the same
`ref`). -/
structure Service where
  ref : Nat
  sid : String
  sname : String
deriving DecidableEq

/-- Bundle metadata returned by `bundleregistry.get_bundle`; the engine only
carries it around. -/
structure Bundle where
  btype : String
deriving DecidableEq

/-- Registry key.  `HomeActivity` records are keyed by the activity id string
reported by the service or the launch intent; `HomeRawWindow` placeholders
are keyed by an id synthesized from their window.  Modelled from the spec:
placeholder ids are "synthesized ... derived from the window"
(homerawwindow.py is not in src/), and do not collide with real ids. -/
inductive ActId where
  | real (s : String)
  | raw (xid : Nat)
deriving DecidableEq

/-- Modelled from the spec: `HomeActivity` (model/homeactivity.py is not in
src/).  Fields follow spec §3 and the uses in homemodel.py: `get_launched`
is true once a window is attached; the pending-expiry timer is armed at
creation and disarmed exactly when the record leaves the windowless state,
i.e. by `set_window` (spec §5); `timerConnected` records whether
`HomeModel._activity_launch_timeout_cb` was connected to the timer signal
(`notify_activity_launch` connects it, `_add_activity` does not). -/
structure HomeActivity where
  serial : Nat
  aid : String
  bundle : Bundle
  launchTime : Nat
  window : Option Window
  service : Option Service
  timerArmed : Bool
  timerConnected : Bool
deriving DecidableEq

/-- Modelled from the spec: `HomeRawWindow` (model/homerawwindow.py is not in
src/): a placeholder that knows only its window; it reports
`get_launched = true` and has no service. -/
structure HomeRawWindow where
  serial : Nat
  window : Window
  launchTime : Nat
deriving DecidableEq

/-- A tracked object: either a full `HomeActivity` or a raw placeholder. -/
inductive Record where
  | act (a : HomeActivity)
  | raw (r : HomeRawWindow)
deriving DecidableEq

/-- `get_activity_id`. -/
def Record.activityId : Record → ActId
  | .act a => .real a.aid
  | .raw r => .raw r.window.xid

/-- `get_launched`. -/
def Record.launched : Record → Bool
  | .act a => a.window.isSome
  | .raw _ => true

/-- `get_xid` (none when no window is attached). -/
def Record.getXid : Record → Option Nat
  | .act a => a.window.map Window.xid
  | .raw r => some r.window.xid

/-- `get_service` (raw placeholders have none). -/
def Record.getService : Record → Option Service
  | .act a => a.service
  | .raw _ => none

/-- `get_launch_time`. -/
def Record.launchTime : Record → Nat
  | .act a => a.launchTime
  | .raw r => r.launchTime

/-- Object identity of the underlying Python object. -/
def Record.serial : Record → Nat
  | .act a => a.serial
  | .raw r => r.serial

/-- Association-list lookup (first entry with the given key). -/
def alook {α β : Type} [DecidableEq α] : List (α × β) → α → Option β
  | [], _ => none
  | p :: t, k => if p.1 = k then some p.2 else alook t k

/-- Removal of every entry with the given key (`del d[k]` on a dict). -/
def aerase {α β : Type} [DecidableEq α] (l : List (α × β)) (k : α) :
    List (α × β) :=
  l.filter (fun p => p.1 ≠ k)

/-- Dict assignment `d[k] = v`. -/
def ains {α β : Type} [DecidableEq α] (l : List (α × β)) (k : α) (v : β) :
    List (α × β) :=
  (k, v) :: aerase l k

/-- In-place mutation of the object stored at serial `σ`. -/
def hupdate (h : List (Nat × Record)) (σ : Nat) (f : Record → Record) :
    List (Nat × Record) :=
  h.map (fun p => if p.1 = σ then (p.1, f p.2) else p)

/-- The engine state: object heap, `self._activities`,
`self._current_activity` (by object serial), the next fresh serial, and the
monotonic clock from which `launch_time` stamps are drawn. -/
structure HState where
  heap : List (Nat × Record)
  dict : List (ActId × Nat)
  current : Option Nat
  nextSerial : Nat
  clock : Nat
deriving DecidableEq

/-- The engine's external collaborators as seen during one event delivery:
the session-bus lookup performed by `_add_activity` (`svcOf xid` is the
service obtained for name `org.laptop.Activity<xid>`, or `none` when the
lookup raises `DBusException`), and `bundleregistry.get_bundle`. -/
structure Env where
  svcOf : Nat → Option Service
  bundles : String → Option Bundle

/-- Outward-visible effects: the four GObject signals of `HomeModel` plus
`set_active` calls placed on service handles. -/
inductive Emission where
  | activityLaunched (serial : Nat)
  | activityAdded (serial : Nat)
  | activityRemoved (serial : Nat)
  | activeActivityChanged (serial : Option Nat)
  | setActive (svc : Service) (flag : Bool)
deriving DecidableEq

/-- Exceptions raised by the engine: `unknownServiceType` is the
`ValueError` of `notify_activity_launch` (line 256), `missingBundle` the
`RuntimeError` of `_add_activity` (line 223); spec §7 names them
`UnknownServiceTypeError` and `MissingBundleError`. -/
inductive Err where
  | unknownServiceType
  | missingBundle
deriving DecidableEq

/-- Result of delivering one event: the state after the handler ran
(mutations made before a raise persist), the emissions in order, and the
exception if one propagated. -/
structure Out where
  st : HState
  ems : List Emission
  err : Option Err
deriving DecidableEq

/-- `_get_activity_by_xid(xid)`: first dict value with
`get_launched() and get_xid() == xid`; returns the object (serial and
value). -/
def getActivityByXid (s : HState) (x : Nat) : Option (Nat × Record) :=
  (s.dict.filterMap (fun p => (alook s.heap p.2).map (fun r => (p.2, r)))).find?
    (fun pr => pr.2.launched && decide (pr.2.getXid = some x))

/-- `_notify_activity_activation(old, new)`: the `set_active` calls issued
on a focus transition; `o` and `n` are the object identities of the old and
new activity (`self._current_activity` and its replacement). -/
def notifyActivityActivation (s : HState) (o n : Option Nat) : List Emission :=
  if o = n then []
  else
    (match (o.bind (alook s.heap)).bind Record.getService with
     | some svc => [Emission.setActive svc false]
     | none => []) ++
    (match (n.bind (alook s.heap)).bind Record.getService with
     | some svc => [Emission.setActive svc true]
     | none => [])

/-- `_internal_remove_activity(activity)`: clear the current pointer when it
is this very object, emit `activity-removed`, then delete the object's
activity id from the dict. -/
def internalRemoveActivity (s : HState) (σ : Nat) : HState × List Emission :=
  let cur := if s.current = some σ then none else s.current
  let d :=
    match alook s.heap σ with
    | some r => aerase s.dict r.activityId
    | none => s.dict
  ({ s with dict := d, current := cur }, [Emission.activityRemoved σ])

/-- `_remove_activity(xid)` (not-found case is only logged). -/
def removeActivity (s : HState) (x : Nat) : HState × List Emission :=
  match getActivityByXid s x with
  | some pr => internalRemoveActivity s pr.1
  | none => (s, [])

/-- `_add_window(window)`: create a `HomeRawWindow`, store it under its
synthesized id, emit `activity-added`. -/
def addWindow (s : HState) (w : Window) : Out :=
  let r : Record := .raw ⟨s.nextSerial, w, s.clock⟩
  let s1 : HState :=
    { s with heap := (s.nextSerial, r) :: s.heap,
             dict := ains s.dict r.activityId s.nextSerial,
             nextSerial := s.nextSerial + 1,
             clock := s.clock + 1 }
  ⟨s1, [Emission.activityAdded s.nextSerial], none⟩

/-- `HomeActivity.set_service` followed by `set_window` as performed at the
end of `_add_activity`.  Modelled from the spec: window attachment sets
`launched` and disarms the pending-expiry timer (§3, §5).  On a raw
placeholder these methods do not exist; that case is unreachable from the
call sites (real-keyed dict entries hold `HomeActivity` objects) and is the
identity here. -/
def bindServiceWindow (svc : Service) (w : Window) : Record → Record
  | .act a =>
      .act { a with service := some svc, window := some w, timerArmed := false }
  | .raw r => .raw r

/-- `_add_activity(window)`. -/
def addActivity (env : Env) (s : HState) (w : Window) : Out :=
  match env.svcOf w.xid with
  | none => addWindow s w
  | some service =>
    let actId : ActId := .real service.sid
    match alook s.dict actId with
    | some σ =>
        ⟨{ s with heap := hupdate s.heap σ (bindServiceWindow service w) },
         [Emission.activityAdded σ], none⟩
    | none =>
        match env.bundles service.sname with
        | none => ⟨s, [], some Err.missingBundle⟩
        | some bundle =>
            let a : HomeActivity :=
              ⟨s.nextSerial, service.sid, bundle, s.clock, none, none,
               true, false⟩
            let r : Record := bindServiceWindow service w (.act a)
            let s1 : HState :=
              { s with heap := (s.nextSerial, r) :: s.heap,
                       dict := ains s.dict actId s.nextSerial,
                       nextSerial := s.nextSerial + 1,
                       clock := s.clock + 1 }
            ⟨s1, [Emission.activityAdded s.nextSerial], none⟩

/-- `_window_opened_cb(screen, window)`. -/
def windowOpenedCb (env : Env) (s : HState) (w : Window) : Out :=
  if w.wtype = WKind.normal then addActivity env s w else ⟨s, [], none⟩

/-- `_window_closed_cb(screen, window)`.  Note that the emptiness check is
outside the window-kind guard in the source. -/
def windowClosedCb (s : HState) (w : Window) : Out :=
  let p := if w.wtype = WKind.normal then removeActivity s w.xid else (s, [])
  if p.1.dict.isEmpty then
    ⟨p.1, p.2 ++ [Emission.activeActivityChanged none]
            ++ notifyActivityActivation p.1 p.1.current none, none⟩
  else ⟨p.1, p.2, none⟩

/-- `_active_window_changed_cb(screen)`; the argument is
`screen.get_active_window()`. -/
def activeWindowChangedCb (s : HState) (wo : Option Window) : Out :=
  match wo with
  | none =>
      ⟨s, [Emission.activeActivityChanged none]
            ++ notifyActivityActivation s s.current none, none⟩
  | some w =>
      if w.wtype ≠ WKind.normal then ⟨s, [], none⟩
      else
        match getActivityByXid s w.xid with
        | some pr =>
            if pr.2.launched then
              ⟨{ s with current := some pr.1 },
               notifyActivityActivation s s.current (some pr.1)
                 ++ [Emission.activeActivityChanged (some pr.1)], none⟩
            else
              ⟨{ s with current := none },
               notifyActivityActivation s s.current none
                 ++ [Emission.activeActivityChanged none], none⟩
        | none =>
            ⟨{ s with current := none },
             notifyActivityActivation s s.current none
               ++ [Emission.activeActivityChanged none], none⟩

/-- `_SERVICE_NAME`. -/
def SERVICE_NAME : String := "org.laptop.Activity"

/-- Python `name.startswith(p)`, over character lists. -/
def pyStartswith (p s : String) : Bool := p.data.isPrefixOf s.data

/-- Python slicing `s[n:]`, over character lists. -/
def pySliceFrom (s : String) (n : Nat) : List Char := s.data.drop n

/-- Python `str.isdigit` (false on the empty string). -/
def pyIsDigit (cs : List Char) : Bool := !cs.isEmpty && cs.all Char.isDigit

/-- Python `int` on a digit string. -/
def pyInt (cs : List Char) : Nat :=
  cs.foldl (fun a c => 10 * a + (c.toNat - 48)) 0

/-- `_dbus_name_owner_changed_cb(name, old, new)`: acts only when a service
matching the activity naming convention newly claims ownership
(`new and not old`, the owner strings being truthy iff non-empty), the
numeric suffix parses, and the window resolves to a raw placeholder, in
which case the placeholder is removed and `_add_activity` re-runs on its
window. -/
def dbusNameOwnerChangedCb (env : Env) (s : HState)
    (name oldOwn newOwn : String) : Out :=
  if pyStartswith SERVICE_NAME name ∧ newOwn ≠ "" ∧ oldOwn = "" then
    let xs := pySliceFrom name SERVICE_NAME.data.length
    if pyIsDigit xs then
      let x := pyInt xs
      match getActivityByXid s x with
      | some (σ, Record.raw rw) =>
          let p := internalRemoveActivity s σ
          let o := addActivity env p.1 rw.window
          ⟨o.st, p.2 ++ o.ems, o.err⟩
      | _ => ⟨s, [], none⟩
    else ⟨s, [], none⟩
  else ⟨s, [], none⟩

/-- `_activity_launch_timeout_cb(activity)`: no-op when the object's
activity id is no longer a dict key, else remove. -/
def activityLaunchTimeoutCb (s : HState) (σ : Nat) : HState × List Emission :=
  match alook s.heap σ with
  | none => (s, [])
  | some r =>
      if (alook s.dict r.activityId).isSome then internalRemoveActivity s σ
      else (s, [])

/-- Timer disarm (one-shot fire or `set_window`). -/
def disarm : Record → Record
  | .act a => .act { a with timerArmed := false }
  | .raw r => .raw r

/-- Firing of a `HomeActivity` pending-expiry timer.  Modelled from the
spec (homeactivity.py is not in src/): the timer is one-shot, fires only
while armed, and invokes `_activity_launch_timeout_cb` only when that
callback was connected. -/
def launchTimeoutFire (s : HState) (σ : Nat) : Out :=
  match alook s.heap σ with
  | some (.act a) =>
      if a.timerArmed then
        let s1 := { s with heap := hupdate s.heap σ disarm }
        if a.timerConnected then
          let p := activityLaunchTimeoutCb s1 σ
          ⟨p.1, p.2, none⟩
        else ⟨s1, [], none⟩
      else ⟨s, [], none⟩
  | _ => ⟨s, [], none⟩

/-- `notify_activity_launch(activity_id, service_name)`. -/
def notifyActivityLaunch (env : Env) (s : HState) (aid sname : String) : Out :=
  match env.bundles sname with
  | none => ⟨s, [], some Err.unknownServiceType⟩
  | some bundle =>
      let a : HomeActivity :=
        ⟨s.nextSerial, aid, bundle, s.clock, none, none, true, true⟩
      let s1 : HState :=
        { s with heap := (s.nextSerial, Record.act a) :: s.heap,
                 dict := ains s.dict (ActId.real aid) s.nextSerial,
                 nextSerial := s.nextSerial + 1,
                 clock := s.clock + 1 }
      ⟨s1, [Emission.activityLaunched s.nextSerial], none⟩

/-- `notify_activity_launch_failed(activity_id)` (absent id is only
logged). -/
def notifyActivityLaunchFailed (s : HState) (aid : String) : Out :=
  match alook s.dict (ActId.real aid) with
  | some σ =>
      let p := internalRemoveActivity s σ
      ⟨p.1, p.2, none⟩
  | none => ⟨s, [], none⟩

/-- One deliverable event, as pushed by the two adapters, the timers and the
shell. -/
inductive Event where
  | windowOpened (w : Window)
  | windowClosed (w : Window)
  | activeWindowChanged (w : Option Window)
  | nameOwnerChanged (name oldOwn newOwn : String)
  | launchTimeout (serial : Nat)
  | launch (aid sname : String)
  | launchFailed (aid : String)
deriving DecidableEq

/-- Delivery of one event to the engine. -/
def step (env : Env) (e : Event) (s : HState) : Out :=
  match e with
  | .windowOpened w => windowOpenedCb env s w
  | .windowClosed w => windowClosedCb s w
  | .activeWindowChanged w => activeWindowChangedCb s w
  | .nameOwnerChanged n o nw => dbusNameOwnerChangedCb env s n o nw
  | .launchTimeout σ => launchTimeoutFire s σ
  | .launch a t => notifyActivityLaunch env s a t
  | .launchFailed a => notifyActivityLaunchFailed s a

/-- The freshly constructed `HomeModel`. -/
def init : HState := ⟨[], [], none, 0, 0⟩

/-- Delivery of a whole event trace. -/
def run (tr : List (Env × Event)) (s : HState) : HState :=
  tr.foldl (fun st p => (step p.1 p.2 st).st) s

/-- The comparison used by `_get_ordered_activities`
(`key=lambda a: a.get_launch_time()`). -/
def timeLE (a b : Record) : Prop := Record.launchTime a ≤ Record.launchTime b

instance : DecidableRel timeLE := fun a b => Nat.decLe _ _

instance : IsTotal Record timeLE := ⟨fun a b => Nat.le_total _ _⟩

instance : IsTrans Record timeLE := ⟨fun _ _ _ h1 h2 => Nat.le_trans h1 h2⟩

/-- The strict version of `timeLE`, used to pin sorted views down uniquely
(launch times of live records are pairwise distinct). -/
def timeLT (a b : Record) : Prop := Record.launchTime a < Record.launchTime b

instance : IsAntisymm Record timeLT :=
  ⟨fun _ _ h1 h2 => absurd h2 (Nat.lt_asymm h1)⟩

/-- The dict values of a state, in dict order. -/
def recordsOf (s : HState) : List Record :=
  s.dict.filterMap (fun p => alook s.heap p.2)

/-- `_get_ordered_activities`: the dict values sorted ascending by
`get_launch_time`. -/
def getOrderedActivities (s : HState) : List Record :=
  (recordsOf s).insertionSort timeLE

/-- `__iter__`. -/
def modelIter (s : HState) : List Record := getOrderedActivities s

/-- `__len__`. -/
def modelLen (s : HState) : Nat := s.dict.length

/-- `__getitem__` (IndexError becomes `none`). -/
def modelGet (s : HState) (i : Nat) : Option Record :=
  (getOrderedActivities s).get? i

/-- Python `list.index(obj)` over records, comparing by object identity
(ValueError becomes `none`). -/
def listIndex (σ : Nat) : List Record → Option Nat
  | [] => none
  | r :: t =>
      if Record.serial r = σ then some 0 else (listIndex σ t).map (· + 1)

/-- `index(obj)`: position of the object (by identity) in the ordered view
(ValueError becomes `none`). -/
def modelIndex (s : HState) (σ : Nat) : Option Nat :=
  listIndex σ (getOrderedActivities s)

/-- State-only wellformedness of the engine state: dict keys are unique,
dict values are live heap objects whose activity id matches their key, heap
serials are unique, below `nextSerial` and consistent, launch times are
below the clock and pairwise distinct, and raw placeholders were created
from normal windows. -/
def SInv (s : HState) : Prop :=
  (s.dict.map Prod.fst).Nodup ∧
  (∀ p ∈ s.dict, ∃ r, alook s.heap p.2 = some r ∧ r.activityId = p.1) ∧
  (s.heap.map Prod.fst).Nodup ∧
  (∀ q ∈ s.heap, Record.serial q.2 = q.1 ∧ q.1 < s.nextSerial) ∧
  (∀ q ∈ s.heap, Record.launchTime q.2 < s.clock) ∧
  (∀ q ∈ s.heap, ∀ q2 ∈ s.heap, q.1 ≠ q2.1 →
    Record.launchTime q.2 ≠ Record.launchTime q2.2) ∧
  (∀ q ∈ s.heap, ∀ rw, q.2 = Record.raw rw → rw.window.wtype = WKind.normal)

/-- Window-related invariants relative to the set `ow` of currently open
windows (with their kinds): every window held by a tracked record is an
open normal window, records under distinct keys never hold the same window,
and open window ids are unique. -/
def WinInv (ow : List (Nat × WKind)) (s : HState) : Prop :=
  (∀ p ∈ s.dict, ∀ r, alook s.heap p.2 = some r →
    ∀ x, r.getXid = some x → (x, WKind.normal) ∈ ow) ∧
  (∀ p ∈ s.dict, ∀ p2 ∈ s.dict, p.1 ≠ p2.1 →
    ∀ r r2, alook s.heap p.2 = some r → alook s.heap p2.2 = some r2 →
      ∀ x, r.getXid = some x → r2.getXid ≠ some x) ∧
  (ow.map Prod.fst).Nodup

/-- Full reachability invariant. -/
def RInv (ow : List (Nat × WKind)) (s : HState) : Prop := SInv s ∧ WinInv ow s

/-- Environment sanity of one event relative to the open-window set: the
window system only reports the opening of a fresh window id and the closing
of a window that is open (with its kind). -/
def openStep (e : Event) (ow : List (Nat × WKind)) :
    Option (List (Nat × WKind)) :=
  match e with
  | .windowOpened w =>
      if alook ow w.xid = none then some ((w.xid, w.wtype) :: ow) else none
  | .windowClosed w =>
      if alook ow w.xid = some w.wtype then some (aerase ow w.xid) else none
  | _ => some ow

/-- Open-window evolution over a trace (`none` when the trace is not a
possible behaviour of the window system). -/
def openRun : List (Env × Event) → List (Nat × WKind) →
    Option (List (Nat × WKind))
  | [], ow => some ow
  | p :: t, ow =>
      match openStep p.2 ow with
      | some ow2 => openRun t ow2
      | none => none

/-- A trace the window system can actually deliver, starting with no open
windows. -/
def ValidTrace (tr : List (Env × Event)) : Prop := openRun tr [] ≠ none

theorem alook_cons {α β : Type} [DecidableEq α] (p : α × β)
    (l : List (α × β)) (k : α) :
    alook (p :: l) k = if p.1 = k then some p.2 else alook l k := rfl

theorem alook_mem {α β : Type} [DecidableEq α] {l : List (α × β)} {k : α}
    {v : β} (h : alook l k = some v) : (k, v) ∈ l := by
  induction l with
  | nil => simp [alook] at h
  | cons p t ih =>
      rw [alook_cons] at h
      by_cases hp : p.1 = k
      · simp [hp] at h
        subst hp; subst h
        exact List.mem_cons_self _ _
      · simp [hp] at h
        exact List.mem_cons_of_mem _ (ih h)

theorem alook_eq_none {α β : Type} [DecidableEq α] {l : List (α × β)}
    {k : α} (h : alook l k = none) : ∀ v, (k, v) ∉ l := by
  induction l with
  | nil => simp
  | cons p t ih =>
      rw [alook_cons] at h
      by_cases hp : p.1 = k
      · simp [hp] at h
      · simp [hp] at h
        intro v hv
        rcases List.mem_cons.mp hv with h1 | h1
        · exact hp (by rw [← h1])
        · exact ih h v h1

theorem alook_of_mem_nodup {α β : Type} [DecidableEq α] {l : List (α × β)}
    {k : α} {v : β} (hn : (l.map Prod.fst).Nodup) (hm : (k, v) ∈ l) :
    alook l k = some v := by
  induction l with
  | nil => simp at hm
  | cons p t ih =>
      simp only [List.map_cons, List.nodup_cons] at hn
      rcases List.mem_cons.mp hm with h1 | h1
      · rw [← h1, alook_cons]; simp
      · rw [alook_cons]
        have hk : p.1 ≠ k := by
          intro he
          exact hn.1 (he ▸ List.mem_map_of_mem Prod.fst h1)
        simp [hk]
        exact ih hn.2 h1

theorem mem_aerase {α β : Type} [DecidableEq α] {l : List (α × β)} {k : α}
    {p : α × β} : p ∈ aerase l k ↔ p ∈ l ∧ p.1 ≠ k := by
  unfold aerase
  simp [List.mem_filter]

theorem alook_aerase_self {α β : Type} [DecidableEq α] (l : List (α × β))
    (k : α) : alook (aerase l k) k = none := by
  induction l with
  | nil => rfl
  | cons p t ih =>
      by_cases hp : p.1 = k
      · simpa [aerase, List.filter_cons, hp] using ih
      · simpa [aerase, List.filter_cons, hp, alook_cons] using ih

theorem alook_aerase_ne {α β : Type} [DecidableEq α] (l : List (α × β))
    {k k2 : α} (h : k2 ≠ k) : alook (aerase l k) k2 = alook l k2 := by
  induction l with
  | nil => rfl
  | cons p t ih =>
      have hk : ¬ (k = k2) := fun he => h he.symm
      by_cases hp : p.1 = k
      · simpa [aerase, List.filter_cons, hp, alook_cons, hk] using ih
      · by_cases hp2 : p.1 = k2
        · simp [aerase, List.filter_cons, hp, alook_cons, hp2, h]
        · simpa [aerase, List.filter_cons, hp, alook_cons, hp2] using ih

theorem alook_ains_self {α β : Type} [DecidableEq α] (l : List (α × β))
    (k : α) (v : β) : alook (ains l k v) k = some v := by
  unfold ains; rw [alook_cons]; simp

theorem alook_ains_ne {α β : Type} [DecidableEq α] (l : List (α × β))
    {k k2 : α} (v : β) (h : k2 ≠ k) :
    alook (ains l k v) k2 = alook l k2 := by
  unfold ains
  rw [alook_cons]
  have hk : k ≠ k2 := fun he => h he.symm
  simp only [hk, if_false]
  exact alook_aerase_ne l h

theorem nodup_keys_aerase {α β : Type} [DecidableEq α] {l : List (α × β)}
    (k : α) (h : (l.map Prod.fst).Nodup) :
    ((aerase l k).map Prod.fst).Nodup := by
  unfold aerase
  exact (List.Sublist.map Prod.fst (List.filter_sublist l)).nodup h

theorem nodup_keys_ains {α β : Type} [DecidableEq α] {l : List (α × β)}
    (k : α) (v : β) (h : (l.map Prod.fst).Nodup) :
    ((ains l k v).map Prod.fst).Nodup := by
  unfold ains
  simp only [List.map_cons, List.nodup_cons]
  refine ⟨?_, nodup_keys_aerase k h⟩
  intro hm
  rcases List.mem_map.mp hm with ⟨p, hp, he⟩
  exact (mem_aerase.mp hp).2 he

theorem hupdate_keys (h : List (Nat × Record)) (σ : Nat)
    (f : Record → Record) : (hupdate h σ f).map Prod.fst = h.map Prod.fst := by
  unfold hupdate
  rw [List.map_map]
  apply List.map_congr_left
  intro p _
  by_cases hp : p.1 = σ <;> simp [hp]

theorem alook_hupdate (h : List (Nat × Record)) (σ τ : Nat)
    (f : Record → Record) :
    alook (hupdate h σ f) τ =
      if τ = σ then (alook h σ).map f else alook h τ := by
  induction h with
  | nil => by_cases hτ : τ = σ <;> simp [hupdate, hτ, alook]
  | cons p t ih =>
      simp only [hupdate, List.map_cons] at ih ⊢
      by_cases hτ : τ = σ
      · subst hτ
        by_cases hp : p.1 = τ
        · simp [hp, alook_cons]
        · simp only [alook_cons, hp, if_neg, ite_false] at ih ⊢
          simpa using ih
      · have hστ : ¬ (σ = τ) := fun e => hτ e.symm
        by_cases hp : p.1 = σ
        · simpa [alook_cons, hp, hστ, hτ] using ih
        · by_cases hpτ : p.1 = τ
          · simp [alook_cons, hp, hpτ, hτ]
          · simpa [alook_cons, hp, hpτ, hτ] using ih

theorem mem_hupdate {h : List (Nat × Record)} {σ : Nat}
    {f : Record → Record} {q : Nat × Record} (hq : q ∈ hupdate h σ f) :
    ∃ p ∈ h, q = if p.1 = σ then (p.1, f p.2) else p := by
  unfold hupdate at hq
  rcases List.mem_map.mp hq with ⟨p, hp, he⟩
  exact ⟨p, hp, he.symm⟩

theorem getActivityByXid_spec {s : HState} {x : Nat} {σ : Nat} {r : Record}
    (h : getActivityByXid s x = some (σ, r)) :
    alook s.heap σ = some r ∧ r.launched = true ∧ r.getXid = some x ∧
      ∃ k, (k, σ) ∈ s.dict := by
  unfold getActivityByXid at h
  have hpred := List.find?_some h
  have hmem := List.mem_of_find?_eq_some h
  rcases List.mem_filterMap.mp hmem with ⟨p, hp, he⟩
  cases hl : alook s.heap p.2 with
  | none => rw [hl] at he; simp at he
  | some r2 =>
      rw [hl] at he
      simp only [Option.map_some'] at he
      have he1 : p.2 = σ := congrArg Prod.fst (Option.some.inj he)
      have he2 : r2 = r := congrArg Prod.snd (Option.some.inj he)
      subst he1; subst he2
      simp only [Bool.and_eq_true, decide_eq_true_eq] at hpred
      exact ⟨hl, hpred.1, hpred.2, p.1, by simpa using hp⟩

theorem notify_self (s : HState) (o : Option Nat) :
    notifyActivityActivation s o o = [] := by
  simp [notifyActivityActivation]

theorem notify_setActive_only (s : HState) (o n : Option Nat) :
    ∀ e ∈ notifyActivityActivation s o n,
      ∃ svc b, e = Emission.setActive svc b := by
  unfold notifyActivityActivation
  by_cases h : o = n
  · simp [h]
  · simp only [h, if_false]
    intro e he
    rcases List.mem_append.mp he with h1 | h1
    · cases hc : ((o.bind (alook s.heap)).bind Record.getService) with
      | none => rw [hc] at h1; simp at h1
      | some svc =>
          rw [hc] at h1
          simp at h1
          exact ⟨svc, false, h1⟩
    · cases hc : ((n.bind (alook s.heap)).bind Record.getService) with
      | none => rw [hc] at h1; simp at h1
      | some svc =>
          rw [hc] at h1
          simp at h1
          exact ⟨svc, true, h1⟩

theorem filter_key_aerase {α β : Type} [DecidableEq α] (l : List (α × β))
    (k : α) : (aerase l k).filter (fun p => decide (p.1 = k)) = [] := by
  unfold aerase
  rw [List.filter_filter]
  have : ∀ p : α × β, (decide (p.1 = k) && decide (p.1 ≠ k)) = false := by
    intro p
    by_cases hp : p.1 = k <;> simp [hp]
  simp only [this]
  exact List.filter_false l

/-- C6: `notify_activity_launch(activity_id, service_name)` raises
`UnknownServiceTypeError` exactly when the bundle lookup fails; on a raise
the state is untouched and nothing is emitted; on success exactly one new
windowless record with `launched = false` is stored under the id and exactly
one `activity-launched` signal is emitted. -/
theorem c6_launch_error_handling (env : Env) (s : HState) (aid sname : String) :
    ((notifyActivityLaunch env s aid sname).err = some Err.unknownServiceType ↔
      env.bundles sname = none) ∧
    (env.bundles sname = none →
      (notifyActivityLaunch env s aid sname).st = s ∧
      (notifyActivityLaunch env s aid sname).ems = []) ∧
    (∀ b, env.bundles sname = some b →
      (notifyActivityLaunch env s aid sname).err = none ∧
      alook (notifyActivityLaunch env s aid sname).st.dict (ActId.real aid) =
        some s.nextSerial ∧
      (∃ a : HomeActivity,
        alook (notifyActivityLaunch env s aid sname).st.heap s.nextSerial =
          some (Record.act a) ∧
        a.aid = aid ∧ a.window = none ∧ (Record.act a).launched = false) ∧
      (notifyActivityLaunch env s aid sname).ems =
        [Emission.activityLaunched s.nextSerial] ∧
      (∀ k, k ≠ ActId.real aid →
        alook (notifyActivityLaunch env s aid sname).st.dict k =
          alook s.dict k)) := by
  cases hb : env.bundles sname with
  | none => simp [notifyActivityLaunch, hb]
  | some b =>
      refine ⟨by simp [notifyActivityLaunch, hb], by simp [hb], ?_⟩
      intro b2 hb2
      refine ⟨by simp [notifyActivityLaunch, hb], ?_, ?_, ?_, ?_⟩
      · simp [notifyActivityLaunch, hb, alook_ains_self]
      · refine ⟨⟨s.nextSerial, aid, b, s.clock, none, none, true, true⟩,
          ?_, rfl, rfl, by simp [Record.launched]⟩
        simp [notifyActivityLaunch, hb, alook_cons]
      · simp [notifyActivityLaunch, hb]
      · intro k hk
        simp only [notifyActivityLaunch, hb]
        exact alook_ains_ne s.dict _ hk

/-- A concrete service fixture: the dbus object for window 5, reporting
activity id "A" and service type "T". -/
def exService : Service := ⟨100, "A", "T"⟩

/-- A concrete environment: window 5 resolves to `exService`; the bundle
registry knows exactly the type "T". -/
def exEnv : Env :=
  ⟨fun n => if n = 5 then some exService else none,
   fun t => if t = "T" then some ⟨"T"⟩ else none⟩

/-- A concrete environment in which no service is resolvable. -/
def exEnvNoSvc : Env :=
  ⟨fun _ => none, fun t => if t = "T" then some ⟨"T"⟩ else none⟩

theorem c6_launch_error_handling_witness :
    ((notifyActivityLaunch exEnv init "A" "T").err =
        some Err.unknownServiceType ↔ exEnv.bundles "T" = none) ∧
    alook (notifyActivityLaunch exEnv init "A" "T").st.dict
        (ActId.real "A") = some init.nextSerial := by
  have h := c6_launch_error_handling exEnv init "A" "T"
  exact ⟨h.1, ((h.2.2 ⟨"T"⟩ (by decide)).2.1)⟩

/-- C10 (implicit): a launch intent for an id that is already tracked
silently replaces the old record: exactly one `activity-launched` and no
`activity-removed` is emitted, and afterwards exactly one (new) record sits
under that id. -/
theorem c10_launch_replaces_existing (env : Env) (s : HState)
    (aid sname : String) (b : Bundle) (σ0 : Nat)
    (hb : env.bundles sname = some b)
    (hex : alook s.dict (ActId.real aid) = some σ0) (hs : SInv s) :
    (notifyActivityLaunch env s aid sname).ems =
      [Emission.activityLaunched s.nextSerial] ∧
    (∀ e ∈ (notifyActivityLaunch env s aid sname).ems,
      ∀ τ, e ≠ Emission.activityRemoved τ) ∧
    alook (notifyActivityLaunch env s aid sname).st.dict (ActId.real aid) =
      some s.nextSerial ∧
    s.nextSerial ≠ σ0 ∧
    ((notifyActivityLaunch env s aid sname).st.dict.filter
      (fun p => decide (p.1 = ActId.real aid))).length = 1 ∧
    (notifyActivityLaunch env s aid sname).err = none := by
  have hne : s.nextSerial ≠ σ0 := by
    obtain ⟨r, hr, _⟩ := hs.2.1 (ActId.real aid, σ0) (alook_mem hex)
    have hσ := (hs.2.2.2.1 (σ0, r) (alook_mem hr)).2
    exact fun he => absurd (he ▸ hσ) (lt_irrefl _)
  refine ⟨by simp [notifyActivityLaunch, hb], ?_, ?_, hne, ?_, ?_⟩
  · simp [notifyActivityLaunch, hb]
  · simp [notifyActivityLaunch, hb, alook_ains_self]
  · simp only [notifyActivityLaunch, hb, ains]
    rw [List.filter_cons]
    simp only [decide_eq_true_eq, if_pos rfl]
    rw [filter_key_aerase]
    rfl
  · simp [notifyActivityLaunch, hb]

theorem c10_launch_replaces_existing_witness :
    (notifyActivityLaunch exEnv
        ⟨[(0, Record.act ⟨0, "A", ⟨"T"⟩, 0, none, none, true, true⟩)],
         [(ActId.real "A", 0)], none, 1, 1⟩ "A" "T").ems =
      [Emission.activityLaunched 1] ∧
    alook (notifyActivityLaunch exEnv
        ⟨[(0, Record.act ⟨0, "A", ⟨"T"⟩, 0, none, none, true, true⟩)],
         [(ActId.real "A", 0)], none, 1, 1⟩ "A" "T").st.dict
      (ActId.real "A") = some 1 := by
  have h := c10_launch_replaces_existing exEnv
    ⟨[(0, Record.act ⟨0, "A", ⟨"T"⟩, 0, none, none, true, true⟩)],
     [(ActId.real "A", 0)], none, 1, 1⟩ "A" "T" ⟨"T"⟩ 0
    (by decide) (by decide)
    (by unfold SInv; simp [alook, Record.activityId, Record.serial,
          Record.launchTime])
  exact ⟨h.1, h.2.2.1⟩

/-- C7: a window-open for a recovered activity (service resolvable, id not
tracked) fails with `MissingBundleError` exactly when the bundle lookup for
the service's declared type finds nothing; on failure the state is untouched
and nothing is emitted; otherwise a new record with window and service
attached is stored and one `activity-added` is emitted. -/
theorem c7_recovered_activity_bundle (env : Env) (s : HState) (w : Window)
    (svc : Service) (hw : w.wtype = WKind.normal)
    (hsvc : env.svcOf w.xid = some svc)
    (hnk : alook s.dict (ActId.real svc.sid) = none) :
    ((step env (Event.windowOpened w) s).err = some Err.missingBundle ↔
      env.bundles svc.sname = none) ∧
    (env.bundles svc.sname = none →
      (step env (Event.windowOpened w) s).st = s ∧
      (step env (Event.windowOpened w) s).ems = []) ∧
    (∀ b, env.bundles svc.sname = some b →
      (step env (Event.windowOpened w) s).err = none ∧
      alook (step env (Event.windowOpened w) s).st.dict
        (ActId.real svc.sid) = some s.nextSerial ∧
      (∃ a : HomeActivity,
        alook (step env (Event.windowOpened w) s).st.heap s.nextSerial =
          some (Record.act a) ∧
        a.aid = svc.sid ∧ a.window = some w ∧ a.service = some svc) ∧
      (step env (Event.windowOpened w) s).ems =
        [Emission.activityAdded s.nextSerial]) := by
  cases hb : env.bundles svc.sname with
  | none =>
      refine ⟨?_, ?_, ?_⟩
      · simp [step, windowOpenedCb, hw, addActivity, hsvc, hnk, hb]
      · intro _
        constructor <;>
          simp [step, windowOpenedCb, hw, addActivity, hsvc, hnk, hb]
      · intro b hb2
        exact absurd hb2 (by simp)
  | some b =>
      refine ⟨?_, ?_, ?_⟩
      · simp [step, windowOpenedCb, hw, addActivity, hsvc, hnk, hb]
      · intro hc
        exact absurd hc (by simp)
      · intro b2 _
        refine ⟨?_, ?_, ?_, ?_⟩
        · simp [step, windowOpenedCb, hw, addActivity, hsvc, hnk, hb]
        · simp [step, windowOpenedCb, hw, addActivity, hsvc, hnk, hb,
            bindServiceWindow, alook_ains_self]
        · refine ⟨⟨s.nextSerial, svc.sid, b, s.clock, some w, some svc,
            false, false⟩, ?_, rfl, rfl, rfl⟩
          simp [step, windowOpenedCb, hw, addActivity, hsvc, hnk, hb,
            bindServiceWindow, alook_cons]
        · simp [step, windowOpenedCb, hw, addActivity, hsvc, hnk, hb]

theorem c7_recovered_activity_bundle_witness :
    ((step exEnv (Event.windowOpened ⟨5, WKind.normal⟩) init).err =
        some Err.missingBundle ↔ exEnv.bundles "T" = none) ∧
    alook (step exEnv (Event.windowOpened ⟨5, WKind.normal⟩)
        init).st.dict (ActId.real "A") = some 0 := by
  have h := c7_recovered_activity_bundle exEnv init ⟨5, WKind.normal⟩
    exService rfl (by decide) rfl
  exact ⟨h.1, (h.2.2 ⟨"T"⟩ (by decide)).2.1⟩

/-- C4 (amended): closing a non-normal window never touches the registry,
the focus pointer or the heap, never raises, and never emits
`activity-removed`; it is completely silent whenever the registry is
non-empty, but when the registry is empty the handler still emits
`active-activity-changed(None)` followed by the activation-notify calls,
because the emptiness check sits outside the window-kind guard. -/
theorem c4_nonnormal_close (env : Env) (s : HState) (w : Window)
    (hw : w.wtype ≠ WKind.normal) :
    (step env (Event.windowClosed w) s).st.dict = s.dict ∧
    (step env (Event.windowClosed w) s).st.current = s.current ∧
    (step env (Event.windowClosed w) s).st.heap = s.heap ∧
    (step env (Event.windowClosed w) s).err = none ∧
    (∀ e ∈ (step env (Event.windowClosed w) s).ems,
      ∀ τ, e ≠ Emission.activityRemoved τ) ∧
    (s.dict ≠ [] → (step env (Event.windowClosed w) s).ems = []) ∧
    (s.dict = [] → (step env (Event.windowClosed w) s).ems =
      Emission.activeActivityChanged none ::
        notifyActivityActivation s s.current none) := by
  cases hd : s.dict.isEmpty with
  | false =>
      have hne : s.dict ≠ [] := by
        intro he; rw [he] at hd; simp at hd
      refine ⟨?_, ?_, ?_, ?_, ?_, ?_, ?_⟩ <;>
        simp [step, windowClosedCb, hw, hd, hne]
  | true =>
      have he : s.dict = [] := List.isEmpty_iff.mp hd
      refine ⟨?_, ?_, ?_, ?_, ?_, ?_, ?_⟩
      · simp [step, windowClosedCb, hw, hd]
      · simp [step, windowClosedCb, hw, hd]
      · simp [step, windowClosedCb, hw, hd]
      · simp [step, windowClosedCb, hw, hd]
      · intro e hee τ
        simp only [step, windowClosedCb, hw, if_neg, ite_false, hd,
          if_pos, ite_true] at hee
        simp only [List.nil_append] at hee
        rcases List.mem_cons.mp hee with h1 | h1
        · subst h1; simp
        · obtain ⟨svc, bfl, hsa⟩ := notify_setActive_only s s.current none e h1
          subst hsa; simp
      · intro hne; exact absurd he hne
      · intro _
        simp [step, windowClosedCb, hw, hd]

theorem c4_counterexample :
    (⟨1, WKind.other⟩ : Window).wtype ≠ WKind.normal ∧
    init.dict = [] ∧
    (step exEnv (Event.windowClosed ⟨1, WKind.other⟩) init).ems =
      [Emission.activeActivityChanged none] ∧
    (step exEnv (Event.windowClosed ⟨1, WKind.other⟩) init).ems ≠ [] := by
  refine ⟨by decide, rfl, rfl, by decide⟩

/-- C9: an active-window change to a normal window that resolves to no
tracked record (or only to a non-launched one, which the xid lookup can in
fact never return) clears the focus pointer, runs activation-notify from
the old focus to none, emits exactly one `active-activity-changed(None)`,
leaves the registry untouched and raises nothing. -/
theorem c9_stale_focus_error_handling (env : Env) (s : HState) (w : Window)
    (hw : w.wtype = WKind.normal)
    (hcase : getActivityByXid s w.xid = none ∨
      ∃ pr : Nat × Record, getActivityByXid s w.xid = some pr ∧
        pr.2.launched = false) :
    (step env (Event.activeWindowChanged (some w)) s).st.current = none ∧
    (step env (Event.activeWindowChanged (some w)) s).st.dict = s.dict ∧
    (step env (Event.activeWindowChanged (some w)) s).st.heap = s.heap ∧
    (step env (Event.activeWindowChanged (some w)) s).err = none ∧
    (step env (Event.activeWindowChanged (some w)) s).ems =
      notifyActivityActivation s s.current none ++
        [Emission.activeActivityChanged none] ∧
    ((step env (Event.activeWindowChanged (some w)) s).ems.countP
      (fun e => match e with
        | Emission.activeActivityChanged _ => true
        | _ => false)) = 1 := by
  have hfind : getActivityByXid s w.xid = none := by
    rcases hcase with h | ⟨pr, hpr, hfl⟩
    · exact h
    · have := (getActivityByXid_spec (σ := pr.1) (r := pr.2)
        (by rw [← hpr])).2.1
      rw [hfl] at this
      exact absurd this (by simp)
    
  have hcount : (notifyActivityActivation s s.current none).countP
      (fun e => match e with
        | Emission.activeActivityChanged _ => true
        | _ => false) = 0 := by
    apply List.countP_eq_zero.mpr
    intro e he
    obtain ⟨svc, bfl, hsa⟩ := notify_setActive_only s s.current none e he
    subst hsa; simp
  have hwn : ¬ (w.wtype ≠ WKind.normal) := by simp [hw]
  refine ⟨?_, ?_, ?_, ?_, ?_, ?_⟩ <;>
    simp [step, activeWindowChangedCb, hwn, hfind, List.countP_append,
      hcount, List.countP_cons]

theorem c4_nonnormal_close_witness :
    (⟨1, WKind.other⟩ : Window).wtype ≠ WKind.normal ∧
    (step exEnv (Event.windowClosed ⟨1, WKind.other⟩) init).st.dict =
      init.dict ∧
    (step exEnv (Event.windowClosed ⟨1, WKind.other⟩) init).st.current =
      init.current := by
  have h := c4_nonnormal_close exEnv init ⟨1, WKind.other⟩ (by decide)
  exact ⟨by decide, h.1, h.2.1⟩

theorem c9_stale_focus_error_handling_witness :
    (step exEnv (Event.activeWindowChanged (some ⟨5, WKind.normal⟩))
      init).st.current = none ∧
    (step exEnv (Event.activeWindowChanged (some ⟨5, WKind.normal⟩))
      init).ems = [Emission.activeActivityChanged none] := by
  have h := c9_stale_focus_error_handling exEnv init ⟨5, WKind.normal⟩ rfl
    (Or.inl rfl)
  refine ⟨h.1, ?_⟩
  have h5 := h.2.2.2.2.1
  rw [h5]
  rfl

/-- C3 (amended): when closing a normal window removes the record found for
it and that removal empties the registry, the handler emits
`activity-removed` for it and `active-activity-changed(None)`, and runs the
activation-notify step — but with the current pointer as it stands after
`_internal_remove_activity` already cleared it.  When the removed record was
the focused one the notify step is therefore a no-op, and in particular its
bound service receives no `set_active(false)` call. -/
theorem c3_close_last_record (env : Env) (s : HState) (w : Window)
    (σ : Nat) (r : Record) (hw : w.wtype = WKind.normal)
    (hfind : getActivityByXid s w.xid = some (σ, r))
    (hcur : s.current = some σ)
    (hempty : aerase s.dict (Record.activityId r) = []) :
    (step env (Event.windowClosed w) s).st.dict = [] ∧
    (step env (Event.windowClosed w) s).st.current = none ∧
    (step env (Event.windowClosed w) s).err = none ∧
    (step env (Event.windowClosed w) s).ems =
      [Emission.activityRemoved σ, Emission.activeActivityChanged none] ∧
    (∀ e ∈ (step env (Event.windowClosed w) s).ems,
      ∀ svc, e ≠ Emission.setActive svc false) := by
  have hheap : alook s.heap σ = some r := (getActivityByXid_spec hfind).1
  have hmain : (step env (Event.windowClosed w) s).st.dict = [] ∧
      (step env (Event.windowClosed w) s).st.current = none ∧
      (step env (Event.windowClosed w) s).err = none ∧
      (step env (Event.windowClosed w) s).ems =
        [Emission.activityRemoved σ,
         Emission.activeActivityChanged none] := by
    refine ⟨?_, ?_, ?_, ?_⟩ <;>
      simp [step, windowClosedCb, hw, removeActivity, hfind,
        internalRemoveActivity, hheap, hempty, hcur, notify_self]
  refine ⟨hmain.1, hmain.2.1, hmain.2.2.1, hmain.2.2.2, ?_⟩
  intro e he svc
  rw [hmain.2.2.2] at he
  rcases List.mem_cons.mp he with h1 | h1
  · subst h1; simp
  · rcases List.mem_cons.mp h1 with h2 | h2
    · subst h2; simp
    · simp at h2

theorem c3_counterexample :
    (run [(exEnv, Event.launch "A" "T"),
          (exEnv, Event.windowOpened ⟨5, WKind.normal⟩),
          (exEnv, Event.activeWindowChanged (some ⟨5, WKind.normal⟩))]
        init).current = some 0 ∧
    alook (run [(exEnv, Event.launch "A" "T"),
          (exEnv, Event.windowOpened ⟨5, WKind.normal⟩),
          (exEnv, Event.activeWindowChanged (some ⟨5, WKind.normal⟩))]
        init).heap 0 =
      some (Record.act ⟨0, "A", ⟨"T"⟩, 0, some ⟨5, WKind.normal⟩,
        some exService, false, true⟩) ∧
    (step exEnv (Event.windowClosed ⟨5, WKind.normal⟩)
      (run [(exEnv, Event.launch "A" "T"),
            (exEnv, Event.windowOpened ⟨5, WKind.normal⟩),
            (exEnv, Event.activeWindowChanged (some ⟨5, WKind.normal⟩))]
          init)).st.dict = [] ∧
    (step exEnv (Event.windowClosed ⟨5, WKind.normal⟩)
      (run [(exEnv, Event.launch "A" "T"),
            (exEnv, Event.windowOpened ⟨5, WKind.normal⟩),
            (exEnv, Event.activeWindowChanged (some ⟨5, WKind.normal⟩))]
          init)).ems =
      [Emission.activityRemoved 0, Emission.activeActivityChanged none] ∧
    (∀ svc, Emission.setActive svc false ∉
      (step exEnv (Event.windowClosed ⟨5, WKind.normal⟩)
        (run [(exEnv, Event.launch "A" "T"),
              (exEnv, Event.windowOpened ⟨5, WKind.normal⟩),
              (exEnv, Event.activeWindowChanged (some ⟨5, WKind.normal⟩))]
            init)).ems) := by
  refine ⟨rfl, rfl, rfl, rfl, ?_⟩
  intro svc hmem
  have : (step exEnv (Event.windowClosed ⟨5, WKind.normal⟩)
      (run [(exEnv, Event.launch "A" "T"),
            (exEnv, Event.windowOpened ⟨5, WKind.normal⟩),
            (exEnv, Event.activeWindowChanged (some ⟨5, WKind.normal⟩))]
          init)).ems =
      [Emission.activityRemoved 0, Emission.activeActivityChanged none] := rfl
  rw [this] at hmem
  rcases List.mem_cons.mp hmem with h1 | h1
  · exact absurd h1 (by simp)
  · rcases List.mem_cons.mp h1 with h2 | h2
    · exact absurd h2 (by simp)
    · simp at h2

theorem c3_close_last_record_witness :
    (step exEnv (Event.windowClosed ⟨5, WKind.normal⟩)
      (run [(exEnv, Event.launch "A" "T"),
            (exEnv, Event.windowOpened ⟨5, WKind.normal⟩),
            (exEnv, Event.activeWindowChanged (some ⟨5, WKind.normal⟩))]
          init)).st.dict = [] ∧
    (step exEnv (Event.windowClosed ⟨5, WKind.normal⟩)
      (run [(exEnv, Event.launch "A" "T"),
            (exEnv, Event.windowOpened ⟨5, WKind.normal⟩),
            (exEnv, Event.activeWindowChanged (some ⟨5, WKind.normal⟩))]
          init)).st.current = none := by
  have h := c3_close_last_record exEnv
    (run [(exEnv, Event.launch "A" "T"),
          (exEnv, Event.windowOpened ⟨5, WKind.normal⟩),
          (exEnv, Event.activeWindowChanged (some ⟨5, WKind.normal⟩))]
        init)
    ⟨5, WKind.normal⟩ 0
    (Record.act ⟨0, "A", ⟨"T"⟩, 0, some ⟨5, WKind.normal⟩,
      some exService, false, true⟩)
    rfl rfl rfl rfl
  exact ⟨h.1, h.2.1⟩

/-- C1: once `notify_activity_launch(aid, tname)` succeeds and a
window-open event binds a window and service to the record for `aid`
(which disarms that record's pending-expiry timer), any pending-expiry
timeout belonging to a record for `aid` is a no-op: the bound record stays
registered under `aid` and the timeout emits nothing — provided, as in any
real execution, no stale connected-and-armed timer for the same id was
already pending beforehand.  Timeouts of unrelated records never displace
the record for `aid` either. -/
theorem c1_expiry_safety (env1 env2 env3 : Env) (s0 s1 s2 : HState)
    (w : Window) (svc : Service) (aid tname : String) (b : Bundle)
    (hb : env1.bundles tname = some b)
    (hw : w.wtype = WKind.normal)
    (hsvc : env2.svcOf w.xid = some svc)
    (hsid : svc.sid = aid)
    (hnoA : ∀ q ∈ s0.heap, ∀ a : HomeActivity, q.2 = Record.act a →
      a.aid = aid → a.timerArmed = false ∨ a.timerConnected = false)
    (hs1 : s1 = (step env1 (Event.launch aid tname) s0).st)
    (hs2 : s2 = (step env2 (Event.windowOpened w) s1).st) :
    alook s2.dict (ActId.real aid) = some s0.nextSerial ∧
    alook s2.heap s0.nextSerial =
      some (Record.act ⟨s0.nextSerial, aid, b, s0.clock, some w, some svc,
        false, true⟩) ∧
    (∀ σ : Nat,
      alook (step env3 (Event.launchTimeout σ) s2).st.dict
        (ActId.real aid) = some s0.nextSerial) ∧
    (∀ σ : Nat,
      (∀ a : HomeActivity, alook s2.heap σ = some (Record.act a) →
        a.aid = aid) →
      (step env3 (Event.launchTimeout σ) s2).ems = []) := by
  have h1heap : s1.heap =
      (s0.nextSerial,
        Record.act ⟨s0.nextSerial, aid, b, s0.clock, none, none, true, true⟩)
        :: s0.heap := by
    rw [hs1]; simp [step, notifyActivityLaunch, hb]
  have h1dict : s1.dict = ains s0.dict (ActId.real aid) s0.nextSerial := by
    rw [hs1]; simp [step, notifyActivityLaunch, hb]
  have hlk1 : alook s1.dict (ActId.real svc.sid) = some s0.nextSerial := by
    rw [hsid, h1dict]; exact alook_ains_self _ _ _
  have h2heap : s2.heap =
      hupdate s1.heap s0.nextSerial (bindServiceWindow svc w) := by
    rw [hs2]; simp [step, windowOpenedCb, hw, addActivity, hsvc, hlk1]
  have h2dict : s2.dict = ains s0.dict (ActId.real aid) s0.nextSerial := by
    rw [hs2]; simp [step, windowOpenedCb, hw, addActivity, hsvc, hlk1]
    exact h1dict
  have hA1 : alook s2.heap s0.nextSerial =
      some (Record.act ⟨s0.nextSerial, aid, b, s0.clock, some w, some svc,
        false, true⟩) := by
    rw [h2heap, alook_hupdate]
    simp only [if_pos rfl, h1heap, alook_cons, if_pos rfl]
    rfl
  have hother : ∀ σ : Nat, σ ≠ s0.nextSerial →
      alook s2.heap σ = alook s0.heap σ := by
    intro σ hσ
    rw [h2heap, alook_hupdate, if_neg hσ, h1heap, alook_cons,
      if_neg (fun he => hσ he.symm)]
  have hdlk : alook s2.dict (ActId.real aid) = some s0.nextSerial := by
    rw [h2dict]; exact alook_ains_self _ _ _
  refine ⟨hdlk, hA1, ?_, ?_⟩
  · -- the record for aid survives any timeout event
    intro σ
    by_cases hσ : σ = s0.nextSerial
    · subst hσ
      simp [step, launchTimeoutFire, hA1, hdlk]
    · rw [show (step env3 (Event.launchTimeout σ) s2) =
          launchTimeoutFire s2 σ from rfl]
      unfold launchTimeoutFire
      rw [hother σ hσ]
      cases hs0 : alook s0.heap σ with
      | none => exact hdlk
      | some r =>
          cases r with
          | raw rw0 => exact hdlk
          | act a =>
              cases ha : a.timerArmed with
              | false => simp only [ha, ite_false, Bool.false_eq_true]
                         exact hdlk
              | true =>
                  cases hc : a.timerConnected with
                  | false =>
                      simp only [ha, hc, ite_true, ite_false,
                        Bool.false_eq_true]
                      exact hdlk
                  | true =>
                      have haid : a.aid ≠ aid := by
                        intro he
                        rcases hnoA (σ, Record.act a) (alook_mem hs0) a rfl he
                          with h | h
                        · rw [ha] at h; exact absurd h (by simp)
                        · rw [hc] at h; exact absurd h (by simp)
                      simp only [ha, hc, ite_true]
                      unfold activityLaunchTimeoutCb
                      have hs21 : alook
                          (hupdate s2.heap σ disarm) σ =
                          some (disarm (Record.act a)) := by
                        rw [alook_hupdate, if_pos rfl, hother σ hσ, hs0]
                        rfl
                      simp only [hs21]
                      have hkey : Record.activityId (disarm (Record.act a)) =
                          ActId.real a.aid := rfl
                      rw [hkey]
                      have hne : ActId.real aid ≠ ActId.real a.aid := by
                        intro he
                        exact haid (ActId.real.inj he).symm
                      cases hdd : (alook s2.dict (ActId.real a.aid)).isSome with
                      | false => simp only [hdd, Bool.false_eq_true, ite_false]
                                 exact hdlk
                      | true =>
                          simp only [hdd, ite_true]
                          unfold internalRemoveActivity
                          simp only [hs21]
                          rw [hkey]
                          rw [alook_aerase_ne _ hne]
                          exact hdlk
  · -- a timeout of a record for aid itself emits nothing
    intro σ hσaid
    by_cases hσ : σ = s0.nextSerial
    · subst hσ
      simp [step, launchTimeoutFire, hA1]
    · rw [show (step env3 (Event.launchTimeout σ) s2) =
          launchTimeoutFire s2 σ from rfl]
      unfold launchTimeoutFire
      rw [hother σ hσ]
      cases hs0 : alook s0.heap σ with
      | none => rfl
      | some r =>
          cases r with
          | raw rw0 => rfl
          | act a =>
              have haid : a.aid = aid := by
                apply hσaid
                rw [hother σ hσ, hs0]
              cases ha : a.timerArmed with
              | false => simp [ha]
              | true =>
                  cases hc : a.timerConnected with
                  | false => simp [ha, hc]
                  | true =>
                      rcases hnoA (σ, Record.act a) (alook_mem hs0) a rfl haid
                        with h | h
                      · rw [ha] at h; exact absurd h (by simp)
                      · rw [hc] at h; exact absurd h (by simp)

theorem c1_expiry_safety_witness :
    alook (step exEnv (Event.windowOpened ⟨5, WKind.normal⟩)
        (step exEnv (Event.launch "A" "T") init).st).st.dict
      (ActId.real "A") = some 0 ∧
    alook (step exEnv (Event.launchTimeout 0)
        (step exEnv (Event.windowOpened ⟨5, WKind.normal⟩)
          (step exEnv (Event.launch "A" "T") init).st).st).st.dict
      (ActId.real "A") = some 0 ∧
    (step exEnv (Event.launchTimeout 0)
        (step exEnv (Event.windowOpened ⟨5, WKind.normal⟩)
          (step exEnv (Event.launch "A" "T") init).st).st).ems = [] := by
  have h := c1_expiry_safety exEnv exEnv exEnv init
    (step exEnv (Event.launch "A" "T") init).st
    (step exEnv (Event.windowOpened ⟨5, WKind.normal⟩)
      (step exEnv (Event.launch "A" "T") init).st).st
    ⟨5, WKind.normal⟩ exService "A" "T" ⟨"T"⟩
    (by decide) rfl (by decide) rfl (by simp [init]) rfl rfl
  refine ⟨h.1, h.2.2.1 0, h.2.2.2 0 ?_⟩
  intro a ha
  have h0 : alook (step exEnv (Event.windowOpened ⟨5, WKind.normal⟩)
      (step exEnv (Event.launch "A" "T") init).st).st.heap 0 =
      some (Record.act ⟨0, "A", ⟨"T"⟩, 0, some ⟨5, WKind.normal⟩,
        some exService, false, true⟩) := rfl
  rw [h0] at ha
  injection ha with ha2
  injection ha2 with ha3
  rw [← ha3]

/-- C2: for a window `w` whose service eventually resolves to id `svc.sid`
with handle `svc`, delivering `window-opened` first (while the service is
not yet resolvable) and the service's `NameOwnerChanged` second leaves the
registry with the same final bound record — same activity id, same service
handle, same window — as delivering the two events in the opposite order
(where the early `NameOwnerChanged` finds no placeholder and is a no-op). -/
theorem c2_race_convergence (envS envN : Env) (w : Window) (svc : Service)
    (b : Bundle) (name own : String)
    (hw : w.wtype = WKind.normal)
    (hsvc : envS.svcOf w.xid = some svc)
    (hnoSvc : envN.svcOf w.xid = none)
    (hb : envS.bundles svc.sname = some b)
    (hpre : pyStartswith SERVICE_NAME name = true)
    (hnum : pyIsDigit (pySliceFrom name SERVICE_NAME.data.length) = true)
    (hx : pyInt (pySliceFrom name SERVICE_NAME.data.length) = w.xid)
    (hown : own ≠ "") :
    ∃ σA σB : Nat, ∃ rA rB : Record,
      alook (step envS (Event.nameOwnerChanged name "" own)
          (step envN (Event.windowOpened w) init).st).st.dict
        (ActId.real svc.sid) = some σA ∧
      alook (step envS (Event.nameOwnerChanged name "" own)
          (step envN (Event.windowOpened w) init).st).st.heap σA = some rA ∧
      alook (step envS (Event.windowOpened w)
          (step envS (Event.nameOwnerChanged name "" own) init).st).st.dict
        (ActId.real svc.sid) = some σB ∧
      alook (step envS (Event.windowOpened w)
          (step envS (Event.nameOwnerChanged name "" own) init).st).st.heap
        σB = some rB ∧
      rA.activityId = rB.activityId ∧
      rA.getService = rB.getService ∧ rA.getService = some svc ∧
      rA.getXid = rB.getXid ∧ rA.getXid = some w.xid ∧
      (step envS (Event.nameOwnerChanged name "" own)
          (step envN (Event.windowOpened w) init).st).st.dict.map Prod.fst =
        (step envS (Event.windowOpened w)
          (step envS (Event.nameOwnerChanged name "" own) init).st).st.dict.map
          Prod.fst := by
  -- order B: the early NameOwnerChanged finds no placeholder and is a no-op
  have hB1 : (step envS (Event.nameOwnerChanged name "" own) init).st =
      init := by
    simp [step, dbusNameOwnerChangedCb, hpre, hnum, hown, getActivityByXid,
      init, alook]
  have hB2d : (step envS (Event.windowOpened w)
      (step envS (Event.nameOwnerChanged name "" own) init).st).st.dict =
      [(ActId.real svc.sid, 0)] := by
    rw [hB1]
    simp [step, windowOpenedCb, hw, addActivity, hsvc, hb, init, alook,
      ains, aerase, bindServiceWindow]
  have hB2h : (step envS (Event.windowOpened w)
      (step envS (Event.nameOwnerChanged name "" own) init).st).st.heap =
      [(0, Record.act ⟨0, svc.sid, b, 0, some w, some svc, false, false⟩)]
      := by
    rw [hB1]
    simp [step, windowOpenedCb, hw, addActivity, hsvc, hb, init, alook,
      bindServiceWindow]
  -- order A: the window first becomes a raw placeholder
  have hA1 : (step envN (Event.windowOpened w) init).st =
      ⟨[(0, Record.raw ⟨0, w, 0⟩)], [(ActId.raw w.xid, 0)], none, 1, 1⟩ := by
    simp [step, windowOpenedCb, hw, addActivity, hnoSvc, addWindow, init,
      ains, aerase, Record.activityId]
  have hfind : getActivityByXid
      ⟨[(0, Record.raw ⟨0, w, 0⟩)], [(ActId.raw w.xid, 0)], none, 1, 1⟩
      w.xid = some (0, Record.raw ⟨0, w, 0⟩) := by
    simp [getActivityByXid, alook, Record.launched, Record.getXid]
  have hA2 : (step envS (Event.nameOwnerChanged name "" own)
      (step envN (Event.windowOpened w) init).st).st =
      ⟨[(1, Record.act ⟨1, svc.sid, b, 1, some w, some svc, false, false⟩),
        (0, Record.raw ⟨0, w, 0⟩)],
       [(ActId.real svc.sid, 1)], none, 2, 2⟩ := by
    rw [hA1]
    simp only [step, dbusNameOwnerChangedCb, hpre, hown, hnum, hx]
    simp only [ne_eq, not_false_eq_true, and_self, if_true, hfind,
      if_pos, ite_true, true_and, and_true]
    simp [internalRemoveActivity, alook, Record.activityId, aerase,
      addActivity, hsvc, hb, ains, bindServiceWindow, hown]
  refine ⟨1, 0,
    Record.act ⟨1, svc.sid, b, 1, some w, some svc, false, false⟩,
    Record.act ⟨0, svc.sid, b, 0, some w, some svc, false, false⟩,
    ?_, ?_, ?_, ?_, rfl, rfl, rfl, rfl, rfl, ?_⟩
  · rw [hA2]; simp [alook]
  · rw [hA2]; simp [alook]
  · rw [hB2d]; simp [alook]
  · rw [hB2h]; simp [alook]
  · rw [hA2, hB2d]; rfl

theorem c2_race_convergence_witness :
    ∃ σA σB : Nat, ∃ rA rB : Record,
      alook (step exEnv
          (Event.nameOwnerChanged "org.laptop.Activity5" "" ":1.7")
          (step exEnvNoSvc
            (Event.windowOpened ⟨5, WKind.normal⟩) init).st).st.dict
        (ActId.real exService.sid) = some σA ∧
      alook (step exEnv
          (Event.nameOwnerChanged "org.laptop.Activity5" "" ":1.7")
          (step exEnvNoSvc
            (Event.windowOpened ⟨5, WKind.normal⟩) init).st).st.heap σA =
        some rA ∧
      alook (step exEnv (Event.windowOpened ⟨5, WKind.normal⟩)
          (step exEnv
            (Event.nameOwnerChanged "org.laptop.Activity5" "" ":1.7")
            init).st).st.dict (ActId.real exService.sid) = some σB ∧
      alook (step exEnv (Event.windowOpened ⟨5, WKind.normal⟩)
          (step exEnv
            (Event.nameOwnerChanged "org.laptop.Activity5" "" ":1.7")
            init).st).st.heap σB = some rB ∧
      rA.activityId = rB.activityId ∧
      rA.getService = rB.getService ∧ rA.getService = some exService ∧
      rA.getXid = rB.getXid ∧
      rA.getXid = some (⟨5, WKind.normal⟩ : Window).xid ∧
      (step exEnv (Event.nameOwnerChanged "org.laptop.Activity5" "" ":1.7")
          (step exEnvNoSvc
            (Event.windowOpened ⟨5, WKind.normal⟩) init).st).st.dict.map
        Prod.fst =
      (step exEnv (Event.windowOpened ⟨5, WKind.normal⟩)
          (step exEnv
            (Event.nameOwnerChanged "org.laptop.Activity5" "" ":1.7")
            init).st).st.dict.map Prod.fst :=
  c2_race_convergence exEnv exEnvNoSvc ⟨5, WKind.normal⟩ exService ⟨"T"⟩
    "org.laptop.Activity5" ":1.7" rfl rfl rfl rfl
    (by decide) (by decide) (by decide) (by decide)

theorem pairwise_filterMap_mem {α β : Type} {R : α → α → Prop}
    {S : β → β → Prop} (f : α → Option β) :
    ∀ l : List α,
      (∀ a ∈ l, ∀ a2 ∈ l, R a a2 →
        ∀ b b2, f a = some b → f a2 = some b2 → S b b2) →
      l.Pairwise R → (l.filterMap f).Pairwise S := by
  intro l
  induction l with
  | nil => intro _ _; simp
  | cons a t ih =>
      intro h hl
      have hpw := List.pairwise_cons.mp hl
      rw [List.filterMap_cons]
      cases hf : f a with
      | none =>
          exact ih (fun x hx y hy hr => h x (List.mem_cons_of_mem a hx) y
            (List.mem_cons_of_mem a hy) hr) hpw.2
      | some b =>
          apply List.Pairwise.cons
          · intro b2 hb2
            rcases List.mem_filterMap.mp hb2 with ⟨a2, ha2, hfa2⟩
            exact h a (List.mem_cons_self a t) a2 (List.mem_cons_of_mem a ha2)
              (hpw.1 a2 ha2) b b2 hf hfa2
          · exact ih (fun x hx y hy hr => h x (List.mem_cons_of_mem a hx) y
              (List.mem_cons_of_mem a hy) hr) hpw.2

theorem dict_pairwise_keys {s : HState} (hs : SInv s) :
    s.dict.Pairwise (fun p q => p.1 ≠ q.1) := by
  have h := hs.1
  rwa [List.Nodup, List.pairwise_map] at h

theorem recordsOf_entry {s : HState} (hs : SInv s) {p : ActId × Nat}
    (hp : p ∈ s.dict) :
    ∃ r, alook s.heap p.2 = some r ∧ Record.activityId r = p.1 ∧
      Record.serial r = p.2 := by
  obtain ⟨r, hr, hid⟩ := hs.2.1 p hp
  exact ⟨r, hr, hid, (hs.2.2.2.1 (p.2, r) (alook_mem hr)).1⟩

theorem distinct_of_entries {s : HState} (hs : SInv s) {p q : ActId × Nat}
    (hp : p ∈ s.dict) (hq : q ∈ s.dict) (hne : p.1 ≠ q.1)
    {r r2 : Record} (hr : alook s.heap p.2 = some r)
    (hr2 : alook s.heap q.2 = some r2) :
    Record.serial r ≠ Record.serial r2 ∧
    Record.launchTime r ≠ Record.launchTime r2 := by
  obtain ⟨ra, hra, hida, hsera⟩ := recordsOf_entry hs hp
  obtain ⟨rb, hrb, hidb, hserb⟩ := recordsOf_entry hs hq
  have hea : ra = r := Option.some.inj (hra.symm.trans hr)
  have heb : rb = r2 := Option.some.inj (hrb.symm.trans hr2)
  have hkey : p.2 ≠ q.2 := by
    intro he
    rw [he] at hra
    have h3 : ra = rb := Option.some.inj (hra.symm.trans hrb)
    apply hne
    rw [← hida, h3, hidb]
  constructor
  · rw [← hea, ← heb, hsera, hserb]; exact hkey
  · exact hs.2.2.2.2.2.1 (p.2, r) (alook_mem hr) (q.2, r2) (alook_mem hr2)
      hkey

theorem recordsOf_serial_pairwise {s : HState} (hs : SInv s) :
    (recordsOf s).Pairwise
      (fun r r2 => Record.serial r ≠ Record.serial r2) :=
  pairwise_filterMap_mem _ s.dict
    (fun p hp q hq hne b b2 hb hb2 =>
      (distinct_of_entries hs hp hq hne hb hb2).1)
    (dict_pairwise_keys hs)

theorem recordsOf_time_pairwise {s : HState} (hs : SInv s) :
    (recordsOf s).Pairwise
      (fun r r2 => Record.launchTime r ≠ Record.launchTime r2) :=
  pairwise_filterMap_mem _ s.dict
    (fun p hp q hq hne b b2 hb hb2 =>
      (distinct_of_entries hs hp hq hne hb hb2).2)
    (dict_pairwise_keys hs)

theorem sorted_lt_of_le_nodup {l : List Record} (hle : l.Sorted timeLE)
    (hn : l.Pairwise
      (fun r r2 => Record.launchTime r ≠ Record.launchTime r2)) :
    l.Sorted timeLT :=
  (hle.and hn).imp (fun h => Nat.lt_of_le_of_ne h.1 h.2)

theorem pairwise_of_map_nodup {γ : Type} {f : Record → γ} {l : List Record}
    (hn : (l.map f).Nodup) : l.Pairwise (fun a b => f a ≠ f b) :=
  (List.pairwise_map).mp hn

theorem map_nodup_of_pairwise {γ : Type} {f : Record → γ} {l : List Record}
    (hp : l.Pairwise (fun a b => f a ≠ f b)) : (l.map f).Nodup :=
  (List.pairwise_map).mpr hp

theorem listIndex_get {l : List Record} :
    (l.map Record.serial).Nodup →
    ∀ (i : Nat) (r : Record), l.get? i = some r →
      listIndex (Record.serial r) l = some i := by
  induction l with
  | nil => intro _ i r h; simp at h
  | cons a t ih =>
      intro hn i r h
      simp only [List.map_cons, List.nodup_cons] at hn
      cases i with
      | zero =>
          have ha : a = r := Option.some.inj h
          subst ha
          simp [listIndex]
      | succ j =>
          have ht : t.get? j = some r := h
          have hrmem : r ∈ t := List.get?_mem ht
          have hane : ¬ (Record.serial a = Record.serial r) := by
            intro he
            exact hn.1 (he ▸ List.mem_map_of_mem Record.serial hrmem)
          simp only [listIndex, hane, if_neg, ite_false]
          rw [ih hn.2 j r ht]
          rfl

theorem recordsOf_remove {s : HState} (hs : SInv s) {k : ActId} {σ : Nat}
    (hk : alook s.dict k = some σ) :
    recordsOf ((internalRemoveActivity s σ).1) =
      (recordsOf s).filter (fun r => !decide (Record.serial r = σ)) := by
  obtain ⟨r0, hr0, hid0⟩ := hs.2.1 (k, σ) (alook_mem hk)
  have hd : ((internalRemoveActivity s σ).1).dict = aerase s.dict k := by
    unfold internalRemoveActivity
    simp only [hr0]
    rw [hid0]
  have hh : ((internalRemoveActivity s σ).1).heap = s.heap := rfl
  unfold recordsOf
  rw [hd, hh]
  unfold aerase
  rw [List.filterMap_filter, List.filter_filterMap]
  apply List.filterMap_congr
  intro p hp
  obtain ⟨rp, hrp, hidp, hserp⟩ := recordsOf_entry hs hp
  by_cases hpk : p.1 = k
  · have hp2 : (k, p.2) ∈ s.dict := by
      rw [← hpk]
      simpa using hp
    have hps : p.2 = σ := by
      have h2 := alook_of_mem_nodup hs.1 hp2
      exact Option.some.inj (h2.symm.trans hk)
    have hcond : (decide (p.1 ≠ k)) = false := by simp [hpk]
    simp only [hcond, Bool.false_eq_true, if_false, ite_false]
    rw [hrp]
    simp [Option.filter, hserp, hps]
  · have hps : p.2 ≠ σ := by
      intro he
      rw [he, hr0] at hrp
      have h3 : r0 = rp := Option.some.inj hrp
      rw [← h3] at hidp
      exact hpk (hidp.symm.trans hid0)
    have hser : Record.serial rp ≠ σ := by rw [hserp]; exact hps
    simp [hpk, hrp, Option.filter, hser]

/-- C5: the ordered traversal is sorted ascending by `launch_time`;
positional indexing agrees with it; the reverse position lookup of any
traversed record returns its position; and removing one record from the
registry leaves the traversal of the remaining records in the same relative
order (the old traversal with the removed record deleted). -/
theorem c5_ordered_views (s : HState) (hs : SInv s) :
    (modelIter s).Sorted timeLE ∧
    (∀ i, modelGet s i = (modelIter s).get? i) ∧
    (∀ i r, (modelIter s).get? i = some r →
      modelIndex s (Record.serial r) = some i) ∧
    (∀ k σ, alook s.dict k = some σ →
      modelIter ((internalRemoveActivity s σ).1) =
        (modelIter s).filter (fun r => !decide (Record.serial r = σ))) := by
  have hsorted : (modelIter s).Sorted timeLE :=
    List.sorted_insertionSort timeLE (recordsOf s)
  refine ⟨hsorted, fun i => rfl, ?_, ?_⟩
  · intro i r h
    unfold modelIndex
    refine listIndex_get ?_ i r h
    have hn : ((recordsOf s).map Record.serial).Nodup :=
      map_nodup_of_pairwise (recordsOf_serial_pairwise hs)
    have hperm : (modelIter s).Perm (recordsOf s) :=
      List.perm_insertionSort timeLE (recordsOf s)
    exact ((hperm.map Record.serial).nodup_iff).mpr hn
  · intro k σ hk
    have hrem := recordsOf_remove hs hk
    have hpermL : (modelIter ((internalRemoveActivity s σ).1)).Perm
        ((recordsOf s).filter (fun r => !decide (Record.serial r = σ))) := by
      unfold modelIter getOrderedActivities
      rw [hrem]
      exact List.perm_insertionSort timeLE _
    have hpermR : ((modelIter s).filter
        (fun r => !decide (Record.serial r = σ))).Perm
        ((recordsOf s).filter (fun r => !decide (Record.serial r = σ))) :=
      (List.perm_insertionSort timeLE (recordsOf s)).filter _
    have htimeNodup : ((recordsOf s).map Record.launchTime).Nodup :=
      map_nodup_of_pairwise (recordsOf_time_pairwise hs)
    have hsortL : (modelIter ((internalRemoveActivity s σ).1)).Sorted
        timeLT := by
      refine sorted_lt_of_le_nodup
        (List.sorted_insertionSort timeLE _) ?_
      refine pairwise_of_map_nodup (((hpermL.map Record.launchTime).nodup_iff).mpr ?_)
      exact (((List.filter_sublist (recordsOf s)).map
        Record.launchTime)).nodup htimeNodup
    have hsortR : ((modelIter s).filter
        (fun r => !decide (Record.serial r = σ))).Sorted timeLT := by
      refine sorted_lt_of_le_nodup (hsorted.filter _) ?_
      refine pairwise_of_map_nodup (((hpermR.map Record.launchTime).nodup_iff).mpr ?_)
      exact (((List.filter_sublist (recordsOf s)).map
        Record.launchTime)).nodup htimeNodup
    exact List.eq_of_perm_of_sorted (hpermL.trans hpermR.symm) hsortL hsortR

/-- A concrete two-record registry state (two windowless launch intents). -/
def sW : HState :=
  ⟨[(0, Record.act ⟨0, "A", ⟨"T"⟩, 0, none, none, true, true⟩),
    (1, Record.act ⟨1, "B", ⟨"T"⟩, 1, none, none, true, true⟩)],
   [(ActId.real "A", 0), (ActId.real "B", 1)], none, 2, 2⟩

theorem sW_SInv : SInv sW := by
  unfold SInv sW
  refine ⟨by decide, ?_, by decide, by decide, by decide, by decide, ?_⟩
  · intro p hp
    rcases List.mem_cons.mp hp with h | h
    · subst h; exact ⟨_, rfl, rfl⟩
    · rcases List.mem_cons.mp h with h2 | h2
      · subst h2; exact ⟨_, rfl, rfl⟩
      · simp at h2
  · intro q hq rw0 hraw
    rcases List.mem_cons.mp hq with h | h
    · subst h; exact absurd hraw (by simp)
    · rcases List.mem_cons.mp h with h2 | h2
      · subst h2; exact absurd hraw (by simp)
      · simp at h2

theorem c5_ordered_views_witness :
    (modelIter sW).Sorted timeLE ∧
    modelIter ((internalRemoveActivity sW 0).1) =
      (modelIter sW).filter (fun r => !decide (Record.serial r = 0)) := by
  have h := c5_ordered_views sW sW_SInv
  exact ⟨h.1, h.2.2.2 (ActId.real "A") 0 rfl⟩

theorem bind_serial (svc : Service) (w : Window) (r : Record) :
    Record.serial (bindServiceWindow svc w r) = Record.serial r := by
  cases r <;> rfl

theorem bind_time (svc : Service) (w : Window) (r : Record) :
    Record.launchTime (bindServiceWindow svc w r) = Record.launchTime r := by
  cases r <;> rfl

theorem bind_id (svc : Service) (w : Window) (r : Record) :
    Record.activityId (bindServiceWindow svc w r) = Record.activityId r := by
  cases r <;> rfl

theorem bind_raw (svc : Service) (w : Window) (r : Record)
    (rw0 : HomeRawWindow) (h : bindServiceWindow svc w r = Record.raw rw0) :
    r = Record.raw rw0 := by
  cases r
  · exact absurd h (by simp [bindServiceWindow])
  · simpa [bindServiceWindow] using h

theorem bind_xid (svc : Service) (w : Window) (r : Record) (x : Nat)
    (h : Record.getXid (bindServiceWindow svc w r) = some x) :
    x = w.xid ∨ Record.getXid r = some x := by
  cases r with
  | act a =>
      left
      simp [bindServiceWindow, Record.getXid] at h
      exact h.symm
  | raw rw0 => right; exact h

theorem disarm_serial (r : Record) :
    Record.serial (disarm r) = Record.serial r := by cases r <;> rfl

theorem disarm_time (r : Record) :
    Record.launchTime (disarm r) = Record.launchTime r := by cases r <;> rfl

theorem disarm_id (r : Record) :
    Record.activityId (disarm r) = Record.activityId r := by cases r <;> rfl

theorem disarm_xid (r : Record) :
    Record.getXid (disarm r) = Record.getXid r := by cases r <;> rfl

theorem disarm_raw (r : Record) (rw0 : HomeRawWindow)
    (h : disarm r = Record.raw rw0) : r = Record.raw rw0 := by
  cases r
  · exact absurd h (by simp [disarm])
  · simpa [disarm] using h

theorem getXid_launched (r : Record) (x : Nat)
    (h : Record.getXid r = some x) : Record.launched r = true := by
  cases r with
  | act a =>
      cases hw : a.window with
      | none => rw [Record.getXid, hw] at h; simp at h
      | some w2 => simp [Record.launched, hw]
  | raw rw0 => rfl

/-- Invariant transfer to a state with the same heap, counters and a
key-unique subset of the dict (removals and focus changes). -/
theorem RInv_shrink (ow : List (Nat × WKind)) (s s2 : HState)
    (hh : s2.heap = s.heap) (hn : s2.nextSerial = s.nextSerial)
    (hc : s2.clock = s.clock)
    (hsub : ∀ p ∈ s2.dict, p ∈ s.dict)
    (hnd : (s2.dict.map Prod.fst).Nodup)
    (h : RInv ow s) : RInv ow s2 := by
  obtain ⟨⟨hA, hB, hC, hD, hE, hF, hG⟩, hH, hH2, hJ⟩ := h
  refine ⟨⟨hnd, ?_, ?_, ?_, ?_, ?_, ?_⟩, ?_, ?_, hJ⟩
  · intro p hp; rw [hh]; exact hB p (hsub p hp)
  · rw [hh]; exact hC
  · intro q hq; rw [hh] at hq; rw [hn]; exact hD q hq
  · intro q hq; rw [hh] at hq; rw [hc]; exact hE q hq
  · intro q hq q2 hq2 hne
    rw [hh] at hq hq2
    exact hF q hq q2 hq2 hne
  · intro q hq; rw [hh] at hq; exact hG q hq
  · intro p hp r hr x hx
    rw [hh] at hr
    exact hH p (hsub p hp) r hr x hx
  · intro p hp p2 hp2 hne r r2 hr hr2 x hx
    rw [hh] at hr hr2
    exact hH2 p (hsub p hp) p2 (hsub p2 hp2) hne r r2 hr hr2 x hx

theorem RInv_remove (ow : List (Nat × WKind)) (s : HState) (σ : Nat)
    (h : RInv ow s) : RInv ow ((internalRemoveActivity s σ).1) := by
  refine RInv_shrink ow s ((internalRemoveActivity s σ).1) rfl rfl rfl ?_ ?_ h
  · intro p hp
    unfold internalRemoveActivity at hp
    cases hl : alook s.heap σ with
    | none => rw [hl] at hp; exact hp
    | some r => rw [hl] at hp; exact (mem_aerase.mp hp).1
  · unfold internalRemoveActivity
    cases hl : alook s.heap σ with
    | none => exact h.1.1
    | some r => exact nodup_keys_aerase _ h.1.1

/-- Opening a fresh window only grows the open set. -/
theorem WinInv_grow (ow : List (Nat × WKind)) (s : HState) (x : Nat)
    (t : WKind) (hfresh : alook ow x = none) (h : WinInv ow s) :
    WinInv ((x, t) :: ow) s := by
  obtain ⟨hH, hH2, hJ⟩ := h
  refine ⟨?_, hH2, ?_⟩
  · intro p hp r hr y hy
    exact List.mem_cons_of_mem _ (hH p hp r hr y hy)
  · simp only [List.map_cons, List.nodup_cons]
    refine ⟨?_, hJ⟩
    intro hmem
    rcases List.mem_map.mp hmem with ⟨q, hq, he⟩
    have hq2 : q = (x, q.2) := by
      obtain ⟨q1, q2⟩ := q
      cases he
      rfl
    rw [hq2] at hq
    exact alook_eq_none hfresh q.2 hq

theorem mem_ains {α β : Type} [DecidableEq α] {l : List (α × β)} {k : α}
    {v : β} {p : α × β} (h : p ∈ ains l k v) :
    p = (k, v) ∨ (p ∈ l ∧ p.1 ≠ k) := by
  unfold ains at h
  rcases List.mem_cons.mp h with h1 | h1
  · exact Or.inl h1
  · exact Or.inr (mem_aerase.mp h1)

/-- Invariant preservation for the insertion of a freshly created record
(raw placeholder, recovered bound record, or launch-intent record). -/
theorem RInv_add (ow : List (Nat × WKind)) (s : HState) (k : ActId)
    (r : Record)
    (hser : Record.serial r = s.nextSerial)
    (htime : Record.launchTime r = s.clock)
    (hid : Record.activityId r = k)
    (hxid : ∀ x, Record.getXid r = some x → (x, WKind.normal) ∈ ow ∧
      ∀ p ∈ s.dict, ∀ rp, alook s.heap p.2 = some rp →
        Record.getXid rp ≠ some x)
    (hraw : ∀ rw0 : HomeRawWindow, r = Record.raw rw0 →
      rw0.window.wtype = WKind.normal)
    (h : RInv ow s) :
    RInv ow { s with heap := (s.nextSerial, r) :: s.heap,
                     dict := ains s.dict k s.nextSerial,
                     nextSerial := s.nextSerial + 1,
                     clock := s.clock + 1 } := by
  obtain ⟨⟨hA, hB, hC, hD, hE, hF, hG⟩, hH, hH2, hJ⟩ := h
  have hlkold : ∀ p ∈ s.dict,
      alook ((s.nextSerial, r) :: s.heap) p.2 = alook s.heap p.2 := by
    intro p hp
    obtain ⟨rp, hrp, _⟩ := hB p hp
    have hlt : p.2 < s.nextSerial := (hD (p.2, rp) (alook_mem hrp)).2
    rw [alook_cons, if_neg]
    exact fun he => absurd (he ▸ hlt) (lt_irrefl _)
  have hlknew : alook ((s.nextSerial, r) :: s.heap) s.nextSerial = some r := by
    rw [alook_cons, if_pos rfl]
  refine ⟨⟨nodup_keys_ains _ _ hA, ?_, ?_, ?_, ?_, ?_, ?_⟩, ?_, ?_, hJ⟩
  · -- dict entries are live and correctly keyed
    intro p hp
    rcases mem_ains hp with h1 | ⟨h1, _⟩
    · subst h1
      exact ⟨r, hlknew, hid⟩
    · obtain ⟨rp, hrp, hrid⟩ := hB p h1
      exact ⟨rp, (hlkold p h1).trans hrp, hrid⟩
  · -- heap keys unique
    simp only [List.map_cons, List.nodup_cons]
    refine ⟨?_, hC⟩
    intro hmem
    rcases List.mem_map.mp hmem with ⟨q, hq, he⟩
    have hq2 : q = (s.nextSerial, q.2) := by
      obtain ⟨q1, q2⟩ := q
      cases he
      rfl
    rw [hq2] at hq
    exact absurd (hD _ hq).2 (lt_irrefl _)
  · -- serials consistent and below nextSerial
    intro q hq
    rcases List.mem_cons.mp hq with h1 | h1
    · subst h1
      exact ⟨hser, Nat.lt_succ_self _⟩
    · exact ⟨(hD q h1).1, Nat.lt_succ_of_lt (hD q h1).2⟩
  · -- launch times below clock
    intro q hq
    rcases List.mem_cons.mp hq with h1 | h1
    · subst h1
      simp only [htime]
      exact Nat.lt_succ_self _
    · exact Nat.lt_succ_of_lt (hE q h1)
  · -- launch times pairwise distinct
    intro q hq q2 hq2 hne
    rcases List.mem_cons.mp hq with h1 | h1 <;>
      rcases List.mem_cons.mp hq2 with h2 | h2
    · subst h1; subst h2; exact absurd rfl hne
    · subst h1
      simp only [htime]
      exact (hE q2 h2).ne'
    · subst h2
      simp only [htime]
      exact (hE q h1).ne
    · exact hF q h1 q2 h2 hne
  · -- raw placeholders hold normal windows
    intro q hq rw0 hq2
    rcases List.mem_cons.mp hq with h1 | h1
    · subst h1; exact hraw rw0 hq2
    · exact hG q h1 rw0 hq2
  · -- held windows are open and normal
    intro p hp r1 hr1 x hx
    rcases mem_ains hp with h1 | ⟨h1, _⟩
    · subst h1
      simp only at hr1
      rw [hlknew] at hr1
      cases Option.some.inj hr1
      exact (hxid x hx).1
    · rw [hlkold p h1] at hr1
      exact hH p h1 r1 hr1 x hx
  · -- no two records hold the same window
    intro p hp p2 hp2 hne r1 r2 hr1 hr2 x hx
    rcases mem_ains hp with h1 | ⟨h1, _⟩ <;>
      rcases mem_ains hp2 with h2 | ⟨h2, _⟩
    · subst h1; subst h2; exact absurd rfl hne
    · subst h1
      simp only at hr1
      rw [hlknew] at hr1
      cases Option.some.inj hr1
      rw [hlkold p2 h2] at hr2
      exact (hxid x hx).2 p2 h2 r2 hr2
    · subst h2
      simp only at hr2
      rw [hlknew] at hr2
      cases Option.some.inj hr2
      intro hx2
      rw [hlkold p h1] at hr1
      exact (hxid x hx2).2 p h1 r1 hr1 hx
    · rw [hlkold p h1] at hr1
      rw [hlkold p2 h2] at hr2
      exact hH2 p h1 p2 h2 hne r1 r2 hr1 hr2 x hx

/-- Invariant preservation for an in-place object mutation that changes
neither identity, timing nor window (timer disarm). -/
theorem RInv_disarm (ow : List (Nat × WKind)) (s : HState) (σ : Nat)
    (h : RInv ow s) : RInv ow { s with heap := hupdate s.heap σ disarm } := by
  obtain ⟨⟨hA, hB, hC, hD, hE, hF, hG⟩, hH, hH2, hJ⟩ := h
  have hlk : ∀ τ : Nat, alook (hupdate s.heap σ disarm) τ =
      if τ = σ then (alook s.heap σ).map disarm else alook s.heap τ :=
    fun τ => alook_hupdate s.heap σ τ disarm
  have hxid : ∀ τ : Nat, ∀ r1 : Record,
      alook (hupdate s.heap σ disarm) τ = some r1 →
      ∃ r0, alook s.heap τ = some r0 ∧ Record.getXid r1 = Record.getXid r0 ∧
        Record.activityId r1 = Record.activityId r0 := by
    intro τ r1 hr1
    rw [hlk] at hr1
    by_cases hτ : τ = σ
    · rw [if_pos hτ] at hr1
      cases h0 : alook s.heap σ with
      | none => rw [h0] at hr1; simp at hr1
      | some r0 =>
          rw [h0] at hr1
          simp only [Option.map_some'] at hr1
          cases Option.some.inj hr1
          exact ⟨r0, hτ ▸ h0, disarm_xid r0, disarm_id r0⟩
    · rw [if_neg hτ] at hr1
      exact ⟨r1, hr1, rfl, rfl⟩
  refine ⟨⟨hA, ?_, ?_, ?_, ?_, ?_, ?_⟩, ?_, ?_, hJ⟩
  · intro p hp
    obtain ⟨rp, hrp, hrid⟩ := hB p hp
    rw [hlk]
    by_cases hτ : p.2 = σ
    · rw [if_pos hτ, ← hτ, hrp]
      exact ⟨disarm rp, rfl, (disarm_id rp).trans hrid⟩
    · rw [if_neg hτ]
      exact ⟨rp, hrp, hrid⟩
  · rw [hupdate_keys]; exact hC
  · intro q hq
    obtain ⟨p, hp, he⟩ := mem_hupdate hq
    by_cases hps : p.1 = σ
    · rw [if_pos hps] at he
      subst he
      exact ⟨(disarm_serial p.2).trans (hD p hp).1, (hD p hp).2⟩
    · rw [if_neg hps] at he
      rw [he]
      exact hD p hp
  · intro q hq
    obtain ⟨p, hp, he⟩ := mem_hupdate hq
    by_cases hps : p.1 = σ
    · rw [if_pos hps] at he
      subst he
      simp only [disarm_time]
      exact hE p hp
    · rw [if_neg hps] at he; rw [he]; exact hE p hp
  · intro q hq q2 hq2 hne
    obtain ⟨p, hp, he⟩ := mem_hupdate hq
    obtain ⟨p2, hp2, he2⟩ := mem_hupdate hq2
    have hk1 : q.1 = p.1 := by
      by_cases hps : p.1 = σ
      · rw [if_pos hps] at he; subst he; rfl
      · rw [if_neg hps] at he; subst he; rfl
    have hk2 : q2.1 = p2.1 := by
      by_cases hps : p2.1 = σ
      · rw [if_pos hps] at he2; subst he2; rfl
      · rw [if_neg hps] at he2; subst he2; rfl
    have ht1 : Record.launchTime q.2 = Record.launchTime p.2 := by
      by_cases hps : p.1 = σ
      · rw [if_pos hps] at he; subst he; exact disarm_time p.2
      · rw [if_neg hps] at he; subst he; rfl
    have ht2 : Record.launchTime q2.2 = Record.launchTime p2.2 := by
      by_cases hps : p2.1 = σ
      · rw [if_pos hps] at he2; subst he2; exact disarm_time p2.2
      · rw [if_neg hps] at he2; subst he2; rfl
    rw [ht1, ht2]
    exact hF p hp p2 hp2 (by rw [← hk1, ← hk2]; exact hne)
  · intro q hq rw0 hq2
    obtain ⟨p, hp, he⟩ := mem_hupdate hq
    by_cases hps : p.1 = σ
    · rw [if_pos hps] at he
      subst he
      exact hG p hp rw0 (disarm_raw p.2 rw0 hq2)
    · rw [if_neg hps] at he
      rw [he] at hq2
      exact hG p hp rw0 hq2
  · intro p hp r1 hr1 x hx
    obtain ⟨r0, hr0, hx0, _⟩ := hxid p.2 r1 hr1
    rw [hx0] at hx
    exact hH p hp r0 hr0 x hx
  · intro p hp p2 hp2 hne r1 r2 hr1 hr2 x hx
    obtain ⟨r0, hr0, hx0, _⟩ := hxid p.2 r1 hr1
    obtain ⟨r02, hr02, hx02, _⟩ := hxid p2.2 r2 hr2
    rw [hx0] at hx
    rw [hx02]
    exact hH2 p hp p2 hp2 hne r0 r02 hr0 hr02 x hx

/-- Invariant preservation for attaching service and window to the object
at serial `σ` (the `set_service` / `set_window` calls of `_add_activity`),
provided the window is open-normal and not held by any tracked record. -/
theorem RInv_bind (ow : List (Nat × WKind)) (s : HState) (σ : Nat)
    (svc : Service) (w : Window)
    (how : (w.xid, WKind.normal) ∈ ow)
    (hfresh : ∀ p ∈ s.dict, ∀ rp, alook s.heap p.2 = some rp →
      Record.getXid rp ≠ some w.xid)
    (h : RInv ow s) :
    RInv ow { s with heap := hupdate s.heap σ (bindServiceWindow svc w) } := by
  obtain ⟨⟨hA, hB, hC, hD, hE, hF, hG⟩, hH, hH2, hJ⟩ := h
  have hlk : ∀ τ : Nat, alook (hupdate s.heap σ (bindServiceWindow svc w)) τ =
      if τ = σ then (alook s.heap σ).map (bindServiceWindow svc w)
      else alook s.heap τ :=
    fun τ => alook_hupdate s.heap σ τ (bindServiceWindow svc w)
  have hback : ∀ τ : Nat, ∀ r1 : Record,
      alook (hupdate s.heap σ (bindServiceWindow svc w)) τ = some r1 →
      ∃ r0, alook s.heap τ = some r0 ∧
        Record.activityId r1 = Record.activityId r0 ∧
        (r1 = bindServiceWindow svc w r0 ∨ r1 = r0) := by
    intro τ r1 hr1
    rw [hlk] at hr1
    by_cases hτ : τ = σ
    · rw [if_pos hτ] at hr1
      cases h0 : alook s.heap σ with
      | none => rw [h0] at hr1; simp at hr1
      | some r0 =>
          rw [h0] at hr1
          simp only [Option.map_some'] at hr1
          cases Option.some.inj hr1
          exact ⟨r0, hτ ▸ h0, bind_id svc w r0, Or.inl rfl⟩
    · rw [if_neg hτ] at hr1
      exact ⟨r1, hr1, rfl, Or.inr rfl⟩
  refine ⟨⟨hA, ?_, ?_, ?_, ?_, ?_, ?_⟩, ?_, ?_, hJ⟩
  · intro p hp
    obtain ⟨rp, hrp, hrid⟩ := hB p hp
    rw [hlk]
    by_cases hτ : p.2 = σ
    · rw [if_pos hτ, ← hτ, hrp]
      exact ⟨bindServiceWindow svc w rp, rfl, (bind_id svc w rp).trans hrid⟩
    · rw [if_neg hτ]
      exact ⟨rp, hrp, hrid⟩
  · rw [hupdate_keys]; exact hC
  · intro q hq
    obtain ⟨p, hp, he⟩ := mem_hupdate hq
    by_cases hps : p.1 = σ
    · rw [if_pos hps] at he
      subst he
      exact ⟨(bind_serial svc w p.2).trans (hD p hp).1, (hD p hp).2⟩
    · rw [if_neg hps] at he
      rw [he]
      exact hD p hp
  · intro q hq
    obtain ⟨p, hp, he⟩ := mem_hupdate hq
    by_cases hps : p.1 = σ
    · rw [if_pos hps] at he
      subst he
      simp only [bind_time]
      exact hE p hp
    · rw [if_neg hps] at he; rw [he]; exact hE p hp
  · intro q hq q2 hq2 hne
    obtain ⟨p, hp, he⟩ := mem_hupdate hq
    obtain ⟨p2, hp2, he2⟩ := mem_hupdate hq2
    have hk1 : q.1 = p.1 := by
      by_cases hps : p.1 = σ
      · rw [if_pos hps] at he; subst he; rfl
      · rw [if_neg hps] at he; subst he; rfl
    have hk2 : q2.1 = p2.1 := by
      by_cases hps : p2.1 = σ
      · rw [if_pos hps] at he2; subst he2; rfl
      · rw [if_neg hps] at he2; subst he2; rfl
    have ht1 : Record.launchTime q.2 = Record.launchTime p.2 := by
      by_cases hps : p.1 = σ
      · rw [if_pos hps] at he; subst he; exact bind_time svc w p.2
      · rw [if_neg hps] at he; subst he; rfl
    have ht2 : Record.launchTime q2.2 = Record.launchTime p2.2 := by
      by_cases hps : p2.1 = σ
      · rw [if_pos hps] at he2; subst he2; exact bind_time svc w p2.2
      · rw [if_neg hps] at he2; subst he2; rfl
    rw [ht1, ht2]
    exact hF p hp p2 hp2 (by rw [← hk1, ← hk2]; exact hne)
  · intro q hq rw0 hq2
    obtain ⟨p, hp, he⟩ := mem_hupdate hq
    by_cases hps : p.1 = σ
    · rw [if_pos hps] at he
      subst he
      exact hG p hp rw0 (bind_raw svc w p.2 rw0 hq2)
    · rw [if_neg hps] at he
      rw [he] at hq2
      exact hG p hp rw0 hq2
  · -- held windows remain open-normal
    intro p hp r1 hr1 x hx
    obtain ⟨r0, hr0, _, hcase⟩ := hback p.2 r1 hr1
    rcases hcase with hbd | hsame
    · subst hbd
      rcases bind_xid svc w r0 x hx with hxw | hx0
      · subst hxw; exact how
      · exact hH p hp r0 hr0 x hx0
    · exact hH p hp r0 hr0 x (hsame ▸ hx)
  · -- window uniqueness
    intro p hp p2 hp2 hne r1 r2 hr1 hr2 x hx
    have hboth : p.2 = σ → p2.2 = σ → False := by
      intro hpσ hp2σ
      obtain ⟨rp, hrp, hridp⟩ := hB p hp
      obtain ⟨rp2, hrp2, hridp2⟩ := hB p2 hp2
      rw [hpσ] at hrp
      rw [hp2σ] at hrp2
      have he : rp = rp2 := Option.some.inj (hrp.symm.trans hrp2)
      rw [he] at hridp
      exact hne (hridp.symm.trans hridp2)
    intro hx2
    by_cases hpσ : p.2 = σ <;> by_cases hp2σ : p2.2 = σ
    · exact hboth hpσ hp2σ
    · -- p sits at σ: r1 is the freshly bound record
      obtain ⟨rp, hrp, _⟩ := hB p hp
      rw [hlk, if_pos hpσ, ← hpσ, hrp] at hr1
      simp only [Option.map_some'] at hr1
      have hr1e : r1 = bindServiceWindow svc w rp :=
        (Option.some.inj hr1).symm
      rw [hlk, if_neg hp2σ] at hr2
      rw [hr1e] at hx
      rcases bind_xid svc w rp x hx with hxw | hx0
      · subst hxw
        exact hfresh p2 hp2 r2 hr2 hx2
      · exact hH2 p hp p2 hp2 hne rp r2 hrp hr2 x hx0 hx2
    · -- p2 sits at σ: r2 is the freshly bound record
      obtain ⟨rp2, hrp2, _⟩ := hB p2 hp2
      rw [hlk, if_pos hp2σ, ← hp2σ, hrp2] at hr2
      simp only [Option.map_some'] at hr2
      have hr2e : r2 = bindServiceWindow svc w rp2 :=
        (Option.some.inj hr2).symm
      rw [hlk, if_neg hpσ] at hr1
      rw [hr2e] at hx2
      rcases bind_xid svc w rp2 x hx2 with hxw | hx0
      · subst hxw
        exact hfresh p hp r1 hr1 hx
      · exact hH2 p hp p2 hp2 hne r1 rp2 hr1 hrp2 x hx hx0
    · rw [hlk, if_neg hpσ] at hr1
      rw [hlk, if_neg hp2σ] at hr2
      exact hH2 p hp p2 hp2 hne r1 r2 hr1 hr2 x hx hx2

theorem no_holder_of_getAct_none {s : HState} {x : Nat}
    (h : getActivityByXid s x = none) :
    ∀ p ∈ s.dict, ∀ rp, alook s.heap p.2 = some rp →
      Record.getXid rp ≠ some x := by
  intro p hp rp hrp hxid
  unfold getActivityByXid at h
  have hmem : (p.2, rp) ∈ s.dict.filterMap
      (fun q => (alook s.heap q.2).map (fun r => (q.2, r))) := by
    apply List.mem_filterMap.mpr
    exact ⟨p, hp, by rw [hrp]; rfl⟩
  have hpred := List.find?_eq_none.mp h _ hmem
  apply hpred
  simp only [Bool.and_eq_true, decide_eq_true_eq]
  exact ⟨getXid_launched rp x hxid, hxid⟩

theorem no_holder_after_remove {ow : List (Nat × WKind)} {s : HState}
    {x σ : Nat} {r : Record}
    (hfind : getActivityByXid s x = some (σ, r)) (h : RInv ow s) :
    ∀ p ∈ ((internalRemoveActivity s σ).1).dict, ∀ rp,
      alook ((internalRemoveActivity s σ).1).heap p.2 = some rp →
      Record.getXid rp ≠ some x := by
  obtain ⟨hheapσ, hlaunched, hxidr, kf, hkf⟩ := getActivityByXid_spec hfind
  have hid : Record.activityId r = kf := by
    obtain ⟨r2, hr2, hid2⟩ := h.1.2.1 (kf, σ) hkf
    have he : r2 = r := Option.some.inj (hr2.symm.trans hheapσ)
    rw [← he]
    exact hid2
  have hd : ((internalRemoveActivity s σ).1).dict = aerase s.dict kf := by
    unfold internalRemoveActivity
    simp only [hheapσ]
    rw [hid]
  have hh : ((internalRemoveActivity s σ).1).heap = s.heap := rfl
  intro p hp rp hrp
  rw [hd] at hp
  rw [hh] at hrp
  obtain ⟨hpd, hpk⟩ := mem_aerase.mp hp
  exact h.2.2.1 (kf, σ) hkf p hpd (fun he => hpk he.symm) r rp hheapσ hrp
    x hxidr

/-- Invariant preservation for `_add_activity` on an open normal window not
currently held by any record. -/
theorem RInv_addActivity (ow : List (Nat × WKind)) (env : Env) (s : HState)
    (w : Window) (how : (w.xid, WKind.normal) ∈ ow)
    (hwn : w.wtype = WKind.normal)
    (hfresh : ∀ p ∈ s.dict, ∀ rp, alook s.heap p.2 = some rp →
      Record.getXid rp ≠ some w.xid)
    (h : RInv ow s) : RInv ow (addActivity env s w).st := by
  cases hsvc : env.svcOf w.xid with
  | none =>
      simp only [addActivity, hsvc, addWindow]
      exact RInv_add ow s (ActId.raw w.xid)
        (Record.raw ⟨s.nextSerial, w, s.clock⟩) rfl rfl rfl
        (fun x hx => by
          have hxw : x = w.xid := by
            simpa [Record.getXid] using hx.symm
          subst hxw
          exact ⟨how, hfresh⟩)
        (fun rw0 he => by
          cases he
          exact hwn)
        h
  | some svc =>
      cases hlk : alook s.dict (ActId.real svc.sid) with
      | some σ =>
          simp only [addActivity, hsvc, hlk]
          exact RInv_bind ow s σ svc w how hfresh h
      | none =>
          cases hb : env.bundles svc.sname with
          | none =>
              simp only [addActivity, hsvc, hlk, hb]
              exact h
          | some bundle =>
              simp only [addActivity, hsvc, hlk, hb, bindServiceWindow]
              exact RInv_add ow s (ActId.real svc.sid)
                (Record.act ⟨s.nextSerial, svc.sid, bundle, s.clock,
                  some w, some svc, false, false⟩) rfl rfl rfl
                (fun x hx => by
                  have hxw : x = w.xid := by
                    simpa [Record.getXid] using hx.symm
                  subst hxw
                  exact ⟨how, hfresh⟩)
                (fun rw0 he => by cases he)
                h

theorem WinInv_close (ow : List (Nat × WKind)) (s : HState) (x : Nat)
    (hnohold : ∀ p ∈ s.dict, ∀ rp, alook s.heap p.2 = some rp →
      Record.getXid rp ≠ some x)
    (h : WinInv ow s) : WinInv (aerase ow x) s := by
  obtain ⟨hH, hH2, hJ⟩ := h
  refine ⟨?_, hH2, nodup_keys_aerase x hJ⟩
  intro p hp r hr y hy
  have hmem := hH p hp r hr y hy
  apply mem_aerase.mpr
  refine ⟨hmem, ?_⟩
  intro he
  exact hnohold p hp r hr (he ▸ hy)

theorem RInv_current (ow : List (Nat × WKind)) (s : HState) (c : Option Nat)
    (h : RInv ow s) : RInv ow { s with current := c } :=
  RInv_shrink ow s _ rfl rfl rfl (fun p hp => hp) h.1.1 h

theorem windowClosedCb_st (s : HState) (w : Window) :
    (windowClosedCb s w).st =
      (if w.wtype = WKind.normal then removeActivity s w.xid else (s, [])).1
      := by
  unfold windowClosedCb
  cases hie : ((if w.wtype = WKind.normal then removeActivity s w.xid
      else (s, [])).1.dict.isEmpty) <;> simp [hie]

/-- One-step preservation of the reachability invariant under any event the
environment can actually deliver. -/
theorem RInv_step (env : Env) (e : Event) (ow ow2 : List (Nat × WKind))
    (s : HState) (ho : openStep e ow = some ow2) (h : RInv ow s) :
    RInv ow2 (step env e s).st := by
  cases e with
  | windowOpened w =>
      simp only [openStep] at ho
      by_cases hfr : alook ow w.xid = none
      · rw [if_pos hfr] at ho
        have how2 : ow2 = (w.xid, w.wtype) :: ow := (Option.some.inj ho).symm
        subst how2
        have hgrow : RInv ((w.xid, w.wtype) :: ow) s :=
          ⟨h.1, WinInv_grow ow s w.xid w.wtype hfr h.2⟩
        have hfresh : ∀ p ∈ s.dict, ∀ rp, alook s.heap p.2 = some rp →
            Record.getXid rp ≠ some w.xid := by
          intro p hp rp hrp hx
          exact alook_eq_none hfr _ (h.2.1 p hp rp hrp _ hx)
        by_cases hwn : w.wtype = WKind.normal
        · have hst : (step env (Event.windowOpened w) s).st =
              (addActivity env s w).st := by
            simp [step, windowOpenedCb, hwn]
          rw [hst]
          refine RInv_addActivity _ env s w ?_ hwn hfresh hgrow
          rw [hwn]
          exact List.mem_cons_self _ _
        · have hst : (step env (Event.windowOpened w) s).st = s := by
            simp [step, windowOpenedCb, hwn]
          rw [hst]
          exact hgrow
      · rw [if_neg hfr] at ho
        cases ho
  | windowClosed w =>
      simp only [openStep] at ho
      by_cases hcl : alook ow w.xid = some w.wtype
      · rw [if_pos hcl] at ho
        have how2 : ow2 = aerase ow w.xid := (Option.some.inj ho).symm
        subst how2
        have hst := windowClosedCb_st s w
        by_cases hwn : w.wtype = WKind.normal
        · rw [if_pos hwn] at hst
          cases hfind : getActivityByXid s w.xid with
          | none =>
              have hst2 : (step env (Event.windowClosed w) s).st = s := by
                rw [show (step env (Event.windowClosed w) s) =
                  windowClosedCb s w from rfl, hst]
                unfold removeActivity
                rw [hfind]
              rw [hst2]
              exact ⟨h.1, WinInv_close ow s w.xid
                (no_holder_of_getAct_none hfind) h.2⟩
          | some pr =>
              have hst2 : (step env (Event.windowClosed w) s).st =
                  (internalRemoveActivity s pr.1).1 := by
                rw [show (step env (Event.windowClosed w) s) =
                  windowClosedCb s w from rfl, hst]
                unfold removeActivity
                rw [hfind]
              rw [hst2]
              have hrem := RInv_remove ow s pr.1 h
              refine ⟨hrem.1, WinInv_close ow _ w.xid ?_ hrem.2⟩
              exact no_holder_after_remove
                (by rw [hfind]) h
        · rw [if_neg hwn] at hst
          have hst2 : (step env (Event.windowClosed w) s).st = s := by
            rw [show (step env (Event.windowClosed w) s) =
              windowClosedCb s w from rfl, hst]
          rw [hst2]
          have hnohold : ∀ p ∈ s.dict, ∀ rp,
              alook s.heap p.2 = some rp →
              Record.getXid rp ≠ some w.xid := by
            intro p hp rp hrp hx
            have hmem := h.2.1 p hp rp hrp _ hx
            have halk := alook_of_mem_nodup h.2.2.2 hmem
            rw [hcl] at halk
            exact hwn (Option.some.inj halk)
          exact ⟨h.1, WinInv_close ow s w.xid hnohold h.2⟩
      · rw [if_neg hcl] at ho
        cases ho
  | activeWindowChanged wo =>
      simp only [openStep] at ho
      cases Option.some.inj ho
      have hcase : (step env (Event.activeWindowChanged wo) s).st = s ∨
          ∃ c, (step env (Event.activeWindowChanged wo) s).st =
            { s with current := c } := by
        cases wo with
        | none => left; rfl
        | some w =>
            by_cases hwn : w.wtype ≠ WKind.normal
            · left; simp [step, activeWindowChangedCb, hwn]
            · cases hfind : getActivityByXid s w.xid with
              | none =>
                  right
                  exact ⟨none, by simp [step, activeWindowChangedCb, hwn,
                    hfind]⟩
              | some pr =>
                  cases hl : pr.2.launched with
                  | false =>
                      right
                      exact ⟨none, by simp [step, activeWindowChangedCb,
                        hwn, hfind, hl]⟩
                  | true =>
                      right
                      exact ⟨some pr.1, by simp [step,
                        activeWindowChangedCb, hwn, hfind, hl]⟩
      rcases hcase with h1 | ⟨c, h1⟩ <;> rw [h1]
      · exact h
      · exact RInv_current _ s c h
  | nameOwnerChanged name oldOwn newOwn =>
      simp only [openStep] at ho
      cases Option.some.inj ho
      simp only [step, dbusNameOwnerChangedCb]
      by_cases hcond : pyStartswith SERVICE_NAME name ∧ newOwn ≠ "" ∧
          oldOwn = ""
      · rw [if_pos hcond]
        by_cases hdig :
            pyIsDigit (pySliceFrom name SERVICE_NAME.data.length) = true
        · rw [if_pos hdig]
          cases hfind : getActivityByXid s
              (pyInt (pySliceFrom name SERVICE_NAME.data.length)) with
          | none => simp only [hfind]; exact h
          | some pr =>
              obtain ⟨σ, r⟩ := pr
              cases r with
              | act a => simp only [hfind]; exact h
              | raw rw0 =>
                  simp only [hfind]
                  obtain ⟨hheapσ, _, hxid, kf, hkf⟩ :=
                    getActivityByXid_spec hfind
                  have hxeq : rw0.window.xid =
                      pyInt (pySliceFrom name SERVICE_NAME.data.length) :=
                    Option.some.inj hxid
                  have how : (rw0.window.xid, WKind.normal) ∈ ow :=
                    h.2.1 (kf, σ) hkf _ hheapσ _ rfl
                  have hwn : rw0.window.wtype = WKind.normal :=
                    h.1.2.2.2.2.2.2 (σ, Record.raw rw0) (alook_mem hheapσ)
                      rw0 rfl
                  have hfresh := no_holder_after_remove hfind h
                  have hrem := RInv_remove ow s σ h
                  refine RInv_addActivity ow env _ rw0.window how hwn ?_ hrem
                  intro p hp rp hrp hx
                  exact hfresh p hp rp hrp (by rw [hxeq] at hx; exact hx)
        · rw [if_neg hdig]
          exact h
      · rw [if_neg hcond]
        exact h
  | launchTimeout σ =>
      simp only [openStep] at ho
      cases Option.some.inj ho
      simp only [step, launchTimeoutFire]
      cases hl : alook s.heap σ with
      | none => exact h
      | some r =>
          cases r with
          | raw rw0 => exact h
          | act a =>
              cases ha : a.timerArmed with
              | false => simp only [ha, Bool.false_eq_true, if_false,
                  ite_false]; exact h
              | true =>
                  simp only [ha, ite_true]
                  cases hc : a.timerConnected with
                  | false =>
                      simp only [hc, Bool.false_eq_true, if_false, ite_false]
                      exact RInv_disarm ow s σ h
                  | true =>
                      simp only [hc, ite_true]
                      unfold activityLaunchTimeoutCb
                      have hdis := RInv_disarm ow s σ h
                      cases hl2 : alook
                          (hupdate s.heap σ disarm) σ with
                      | none => simp only [hl2]; exact hdis
                      | some r2 =>
                          cases hd : (alook s.dict r2.activityId).isSome with
                          | false =>
                              simp only [hl2, hd, Bool.false_eq_true,
                                if_false, ite_false]
                              exact hdis
                          | true =>
                              simp only [hl2, hd, ite_true]
                              exact RInv_remove ow _ σ hdis
  | launch aid tname =>
      simp only [openStep] at ho
      cases Option.some.inj ho
      simp only [step, notifyActivityLaunch]
      cases hb : env.bundles tname with
      | none => exact h
      | some b =>
          exact RInv_add ow s (ActId.real aid)
            (Record.act ⟨s.nextSerial, aid, b, s.clock, none, none,
              true, true⟩) rfl rfl rfl
            (fun x hx => absurd hx (by simp [Record.getXid]))
            (fun rw0 he => by cases he)
            h
  | launchFailed aid =>
      simp only [openStep] at ho
      cases Option.some.inj ho
      simp only [step, notifyActivityLaunchFailed]
      cases hl : alook s.dict (ActId.real aid) with
      | none => exact h
      | some σ => exact RInv_remove ow s σ h

theorem RInv_openRun :
    ∀ (tr : List (Env × Event)) (ow ow2 : List (Nat × WKind)) (s : HState),
      openRun tr ow = some ow2 → RInv ow s → RInv ow2 (run tr s) := by
  intro tr
  induction tr with
  | nil =>
      intro ow ow2 s ho h
      cases Option.some.inj ho
      exact h
  | cons p t ih =>
      intro ow ow2 s ho h
      simp only [openRun] at ho
      cases hs : openStep p.2 ow with
      | none => rw [hs] at ho; cases ho
      | some owm =>
          rw [hs] at ho
          have h1 := RInv_step p.1 p.2 ow owm s hs h
          have hrun : run (p :: t) s = run t ((step p.1 p.2 s).st) := rfl
          rw [hrun]
          exact ih owm ow2 _ ho h1

theorem RInv_init : RInv [] init := by
  unfold RInv SInv WinInv init
  simp [alook]

/-- C8: in every state reachable from the fresh engine through a trace the
window system can deliver, the registry maps each activity id to exactly
one record (and that record carries the id it is stored under), and no two
records stored under different ids hold the same window identifier. -/
theorem c8_uniqueness (tr : List (Env × Event)) (hv : ValidTrace tr) :
    ((run tr init).dict.map Prod.fst).Nodup ∧
    (∀ p ∈ (run tr init).dict, ∀ r,
      alook (run tr init).heap p.2 = some r →
      Record.activityId r = p.1) ∧
    (∀ p ∈ (run tr init).dict, ∀ p2 ∈ (run tr init).dict, p.1 ≠ p2.1 →
      ∀ r r2, alook (run tr init).heap p.2 = some r →
        alook (run tr init).heap p2.2 = some r2 →
        ∀ x, Record.getXid r = some x → Record.getXid r2 ≠ some x) := by
  unfold ValidTrace at hv
  cases ho : openRun tr [] with
  | none => exact absurd ho hv
  | some ow2 =>
      have h := RInv_openRun tr [] ow2 init ho RInv_init
      refine ⟨h.1.1, ?_, h.2.2.1⟩
      intro p hp r hr
      obtain ⟨r2, hr2, hid⟩ := h.1.2.1 p hp
      have he : r2 = r := Option.some.inj (hr2.symm.trans hr)
      rw [← he]
      exact hid

theorem c8_uniqueness_witness :
    ((run [(exEnv, Event.launch "A" "T"),
           (exEnv, Event.windowOpened ⟨5, WKind.normal⟩),
           (exEnv, Event.windowClosed ⟨5, WKind.normal⟩),
           (exEnvNoSvc, Event.windowOpened ⟨7, WKind.normal⟩)]
        init).dict.map Prod.fst).Nodup :=
  (c8_uniqueness [(exEnv, Event.launch "A" "T"),
           (exEnv, Event.windowOpened ⟨5, WKind.normal⟩),
           (exEnv, Event.windowClosed ⟨5, WKind.normal⟩),
           (exEnvNoSvc, Event.windowOpened ⟨7, WKind.normal⟩)]
    (by unfold ValidTrace; decide)).1
